import Mathlib

/-
Shallow embedding of the PostgresQueryBuilder query-to-SQL compiler
(src/pyon/datastore/postgresql/pg_query.py) and proofs about it.

The Python module compiles a tagged predicate tree plus query arguments into
one SQL string with named placeholders (%(v1)s, %(v2)s, ...) and a mapping
from placeholder names to literal values.  The embedding below mirrors the
source function-by-function: the mutable builder state (the placeholder
counter `_valcnt` and dict `values`) is threaded explicitly as `BState`,
Python exceptions are an explicit `PgError` sum, and the dynamic dispatch of
`_build_where` over operator-tag strings becomes a closed inductive `QExpr`
(one constructor per source branch; the `else: raise BadRequest("Unknown op")`
branch is unreachable under the closed type).
-/

namespace PgQ

/-- Python values that occur as literals in query expressions: strings,
integers, booleans, None, and (possibly nested) lists/tuples. -/
inductive PgVal where
  | s (v : String)
  | i (v : Int)
  | b (v : Bool)
  | none
  | lst (vs : List PgVal)

/-- Python truthiness for the value types above. -/
def truthy : PgVal → Bool
  | .s v => v != ""
  | .i v => v != 0
  | .b v => v
  | .none => false
  | .lst vs => !vs.isEmpty

/-- Matches the source tests `type(value) in (list, tuple)`. -/
def isLst : PgVal → Bool
  | .lst _ => true
  | _ => false

/-- Elements of a list value (only applied after an `isLst` test). -/
def pgList : PgVal → List PgVal
  | .lst vs => vs
  | _ => []

mutual
/-- Python `repr` of a value.  String escaping inside `repr` of a string is
not modelled: the embedding assumes quote-free strings there (repr is only
reached through `str` of a list, which no claim exercises on quoted data). -/
def pyRepr : PgVal → String
  | .s v => "'" ++ v ++ "'"
  | .i v => toString v
  | .b v => bif v then "True" else "False"
  | .none => "None"
  | .lst vs => "[" ++ pyReprJoin vs ++ "]"

/-- Comma-space joined `repr`s, as inside Python list reprs. -/
def pyReprJoin : List PgVal → String
  | [] => ""
  | [x] => pyRepr x
  | x :: y :: xs => pyRepr x ++ ", " ++ pyReprJoin (y :: xs)
end

/-- Python `str` of a value. -/
def pyStr : PgVal → String
  | .s v => v
  | .lst vs => "[" ++ pyReprJoin vs ++ "]"
  | .i v => toString v
  | .b v => bif v then "True" else "False"
  | .none => "None"

/-- Python `len` of a value; raises `TypeError` on non-sequences. -/
def pyLen : PgVal → Except Unit Nat
  | .lst vs => .ok vs.length
  | .s v => .ok v.length
  | _ => .error ()

/-- Python indexing `value[n]`.  On a list it selects the element, on a string
a one-character string.  Out-of-range and non-sequence indexing are total here
(returning None); in the source they are unreachable on the paths that index,
because the length validation in the ASSOP_ASSOCIATED branch runs first. -/
def pyIndex : PgVal → Nat → PgVal
  | .lst vs, n => vs.getD n .none
  | .s v, n => .s ((v.drop n).take 1)
  | _, _ => .none

/-- Exception kinds raised by the source module: `BadRequest` (the
InvalidQuery kind, carrying its message), `NotImplementedError` from the "A"
association direction, and the builtin error kinds that untyped Python code
could raise on malformed dynamic input. -/
inductive PgError where
  | badRequest (msg : String)
  | notImplemented
  | typeError
  | indexError
  | valueError
deriving DecidableEq, Repr

/-- Mutable builder state: `self._valcnt` and the accumulated `self.values`
dict.  The dict is insertion-ordered with distinct keys (each assignment in
`_value` uses a fresh name, proved below), so an append-only association list
models it. -/
structure BState where
  valcnt : Nat
  values : List (String × PgVal)

/-- Core of `PostgresQueryBuilder._value` (the non-flattening else branch):
increment the counter, store the value under the generated name, return the
placeholder token. -/
def bindOne (v : PgVal) (st : BState) : String × BState :=
  let cnt := st.valcnt + 1
  let name := "v" ++ Nat.repr cnt
  ("%(" ++ name ++ ")s", ⟨cnt, st.values ++ [(name, v)]⟩)

mutual
/-- `PostgresQueryBuilder._value(value, flatten_list=True)`: a truthy
list/tuple is flattened into comma-joined individually bound placeholders
when `flatten_list` holds; anything else is bound as one placeholder. -/
def pgValue (v : PgVal) (flatten : Bool) (st : BState) : String × BState :=
  match v, flatten with
  | .lst (x :: xs), true => pgValueJoin (x :: xs) st
  | v, _ => bindOne v st

/-- The generator-join `",".join(self._value(val) for val in value)` inside
`_value`. -/
def pgValueJoin (vs : List PgVal) (st : BState) : String × BState :=
  match vs with
  | [] => ("", st)
  | [x] => pgValue x true st
  | x :: y :: xs =>
    let (f, s1) := pgValue x true st
    let (r, s2) := pgValueJoin (y :: xs) s1
    (f ++ "," ++ r, s2)
end

/-- Python `s.startswith(sub)` (character-level; Lean's own
`String.startsWith` is byte-position based and does not kernel-reduce). -/
def strStarts (s sub : String) : Bool := sub.data.isPrefixOf s.data

/-- Python `s.endswith(sub)`. -/
def strEnds (s sub : String) : Bool := sub.data.isSuffixOf s.data

/-- Python `str.lower` on one character (ASCII, which is all the source
compares). -/
def lowerChar (c : Char) : Char :=
  if 'A' ≤ c ∧ c ≤ 'Z' then Char.ofNat (c.toNat + 32) else c

/-- Python `s.lower()`. -/
def strLower (s : String) : String := ⟨s.data.map lowerChar⟩

/-- `PostgresQueryBuilder._sub_param`: template references "$(name)" are
resolved against `query_params`; a missing name resolves silently to None;
substitution is skipped when no `query_params` were supplied or the value is
not a string. -/
def sub_param (qp : List (String × PgVal)) (v : PgVal) : PgVal :=
  if qp.isEmpty then v
  else
    match v with
    | .s sv =>
      if sv != "" && strStarts sv "$(" && strEnds sv ")" then
        match qp.lookup ((sv.drop 2).dropRight 1) with
        | some pv => pv
        | Option.none => .none
      else .s sv
    | w => w

/-- Query profiles compared against `DataStore.DS_PROFILE` constants in
`_is_standard_col`; `OTHER` stands for every further profile value, all of
which take the final `raise BadRequest("Unknown query profile")` branch. -/
inductive DSProfile where
  | RESOURCES
  | EVENTS
  | OTHER
deriving DecidableEq, Repr

/-- The per-compilation context read by `_build_where` and
`_is_standard_col`: `self.basetable` (after any plain-format sub-table
suffixing), the query-args profile/datastore/ds_sub, and `query_params`. -/
structure QCtx where
  basetable : String
  profile : DSProfile
  datastore : String
  ds_sub : String
  query_params : List (String × PgVal)

/-- `PostgresQueryBuilder._is_standard_col`: fixed per-profile column
whitelists; unknown profile raises BadRequest.  (The `datastore` variable is
read but unused in the source.) -/
def is_standard_col (ctx : QCtx) (col : String) : Except PgError Bool :=
  if ctx.profile = DSProfile.RESOURCES ∧ ctx.ds_sub = "assoc" then
    .ok (["id", "s", "st", "p", "o", "ot"].contains col)
  else if ctx.profile = DSProfile.RESOURCES then
    .ok (["id", "type_", "name", "lcstate", "availability", "ts_created", "ts_updated"].contains col)
  else if ctx.profile = DSProfile.EVENTS then
    .ok (["id", "type_", "origin", "origin_type", "sub_type", "actor_id"].contains col)
  else .error (.badRequest "Unknown query profile")

/-- Comparison-operator tags (DQ.OP_*), one per OP_STR entry. -/
inductive CmpOp where
  | eq | neq | lt | lte | gt | gte | like | ilike | fuzzy | regex | iregex
deriving DecidableEq, Repr

/-- OP_STR text for comparison operators. -/
def cmpStr : CmpOp → String
  | .eq => "="
  | .neq => "<>"
  | .lt => "<"
  | .lte => "<="
  | .gt => ">"
  | .gte => ">="
  | .like => " LIKE "
  | .ilike => " ILIKE "
  | .fuzzy => " %% "
  | .regex => " ~ "
  | .iregex => " ~* "

/-- Range-operator tags (DQ.ROP_*). -/
inductive RangeOp where
  | overlaps | contains | within
deriving DecidableEq, Repr

/-- OP_STR text for range operators. -/
def ropStr : RangeOp → String
  | .overlaps => "&&"
  | .contains => "@>"
  | .within => "<@"

/-- Bounding-box geometry operator tags (DQ.GOP_*_BBOX). -/
inductive BboxOp where
  | overlaps | contains | within
deriving DecidableEq, Repr

/-- OP_STR text for bounding-box operators. -/
def bboxStr : BboxOp → String
  | .overlaps => "&&"
  | .contains => "~"
  | .within => "@"

/-- Named-geometry operator tags (DQ.GOP_*_GEOM). -/
inductive GeomOp where
  | overlaps | crosses | contains | touches | within
deriving DecidableEq, Repr

/-- OP_STR function templates "ST_Xxx(%s,%s)" applied to (column, geometry). -/
def gopStr (op : GeomOp) (a b : String) : String :=
  match op with
  | .overlaps => "ST_Intersects(" ++ a ++ "," ++ b ++ ")"
  | .crosses => "ST_Crosses(" ++ a ++ "," ++ b ++ ")"
  | .contains => "ST_Contains(" ++ a ++ "," ++ b ++ ")"
  | .touches => "ST_Touches(" ++ a ++ "," ++ b ++ ")"
  | .within => "ST_Within(" ++ a ++ "," ++ b ++ ")"

/-- The predicate tree compiled by `_build_where`, one constructor per
dispatch branch of the source (tags are DQ constants defined outside the
packaged sources; the closed type mirrors the dispatch structure). -/
inductive QExpr where
  | cmp (op : CmpOp) (attname : String) (value : PgVal)
  | xin (attname : String) (values : List PgVal)
  | between (attname : String) (v1 v2 : PgVal)
  | attlike (ilike : Bool) (attname : String) (value : PgVal)
  | allmatch (value : PgVal) (contains : Bool)
  | keyword (value : PgVal)
  | altid (ns aid : PgVal)
  | rop (op : RangeOp) (colname : String) (x1 y1 : PgVal)
  | gdistance (colname : String) (px py dist : PgVal) (cop : CmpOp)
  | ggeom (op : GeomOp) (colname : String) (wkt : String) (buf : PgVal)
  | gbbox (op : BboxOp) (colname : String) (x1 y1 x2 y2 : PgVal)
  | qand (args : List QExpr)
  | qor (args : List QExpr)
  | qnot (arg : QExpr)
  | associated (target target_type predicate : PgVal) (direction : String)
      (target_filter : Option QExpr)
  | descend (via_obj : Bool) (target target_type predicate : PgVal) (max_depth : Int)

/-- Python `sep.join(parts)`. -/
def joinSep (sep : String) : List String → String
  | [] => ""
  | [x] => x
  | x :: y :: xs => x ++ sep ++ joinSep sep (y :: xs)

/-- Value as bound on the JSON-document branch (`str` coercion applied) or on
a standard-column branch (parameter-resolved value unchanged). -/
def coerceSub (qp : List (String × PgVal)) (coerce : Bool) (v : PgVal) : PgVal :=
  if coerce then .s (pyStr (sub_param qp v)) else sub_param qp v

/-- The comma-joined per-element `_value(_sub_param(val))` comprehensions of
the source (`coerce` selects the document-branch `str(...)` variant). -/
def bindJoin (qp : List (String × PgVal)) (coerce : Bool) (vals : List PgVal)
    (st : BState) : String × BState :=
  match vals with
  | [] => ("", st)
  | [v] => pgValue (coerceSub qp coerce v) true st
  | v :: w :: ws =>
    let (f, s1) := pgValue (coerceSub qp coerce v) true st
    let (r, s2) := bindJoin qp coerce (w :: ws) s1
    (f ++ "," ++ r, s2)

/-- Python `float(x)` rendered with the `%f` format.  Only integral inputs are
modelled (no floating point in the embedding); every claim that reaches the
geometry-buffer branch is settled without it. -/
def pyFloat6 : PgVal → Except PgError String
  | .i v => .ok (toString v ++ ".000000")
  | .s v =>
    match v.toInt? with
    | some n => .ok (toString n ++ ".000000")
    | Option.none => .error .valueError
  | .b v => .ok (bif v then "1.000000" else "0.000000")
  | _ => .error .typeError

/-- Geometry construction of the GOP_*_GEOM branch: EWKT literal, optionally
wrapped in ST_Buffer with a meters-suffix geography round trip.  Both the WKT
text and the buffer distance are inlined into the SQL, not placeholder-bound. -/
def geomFromWkt (wkt : String) (buf : PgVal) : Except PgError String :=
  let g0 := "ST_GeomFromEWKT('SRID=4326;" ++ wkt ++ "')"
  if truthy buf then
    let (g1, buf1, cast) :=
      match buf with
      | .s bs =>
        if strEnds (strLower bs) "m" then
          (g0 ++ "::geography", PgVal.s (bs.dropRight 1), "::geometry")
        else (g0, PgVal.s bs, "")
      | bv => (g0, bv, "")
    match pyFloat6 buf1 with
    | .error e => .error e
    | .ok f => .ok ("ST_Buffer(" ++ g1 ++ ", " ++ f ++ ")" ++ cast)
  else .ok g0

/-- The list-wrapping normalization at the head of the ASSOP_DESCEND branch:
`if predicate and type(predicate) not in (list, tuple): predicate = [predicate]`. -/
def descWrap (v : PgVal) : PgVal :=
  if truthy v && !isLst v then PgVal.lst [v] else v

/-- Argument validation of the ASSOP_ASSOCIATED branch (source lines 296-302),
run before any SQL is emitted: mutually exclusive target/target_type and
target/target_filter, then direction defaulting (`direction or "A"`), then the
predicate-count/direction-length check.  Returns the defaulted direction.
`has_tf` is the truthiness of the supplied target_filter. -/
def assoc_validate (target target_type predicate : PgVal) (direction : String)
    (has_tf : Bool) : Except PgError String :=
  if truthy target && truthy target_type then
    .error (.badRequest "Cannot provide both target and target_type")
  else if truthy target && has_tf then
    .error (.badRequest "Cannot provide both target and target_filter")
  else
    let dir := if direction = "" then "A" else direction
    if truthy predicate && decide (1 < dir.length) then
      match pyLen predicate with
      | .error _ => .error .typeError
      | .ok n =>
        if dir.length ≠ n then
          .error (.badRequest "Number of predicate expressions must match level of nested associations")
        else .ok dir
    else .ok dir

/-- The per-level predicate clause of `assoc_level` (source lines 281-286):
" AND Ak.p IN (...)" or " AND Ak.p=..." for a truthy level predicate, nothing
otherwise. -/
def assoc_pred_clause (qp : List (String × PgVal)) (ltab : String) (lvpred : PgVal)
    (s1 : BState) : String × BState :=
  if truthy lvpred && isLst lvpred then
    let (j, s1') := bindJoin qp false (pgList lvpred) s1
    (" AND " ++ ltab ++ ".p IN (" ++ j ++ ")", s1')
  else if truthy lvpred then
    let (ph, s1') := pgValue (sub_param qp lvpred) true s1
    (" AND " ++ ltab ++ ".p=" ++ ph, s1')
  else ("", s1)

/-- The recursion-end alternatives of `assoc_level` (source lines 254-275):
resolve the innermost association column against the literal target(s),
target type(s) (optionally AND-ed with a correlated sub-select over the
compiled target_filter), or bare target_filter. -/
def assoc_leaf (ctx : QCtx) (target target_type : PgVal)
    (tfc : String → BState → Except PgError (String × BState)) (has_tf : Bool)
    (ltab aatt : String) (st : BState) : Except PgError (String × BState) :=
  if truthy target && isLst target then
    let (j, s1) := bindJoin ctx.query_params false (pgList target) st
    .ok (ltab ++ "." ++ aatt ++ " IN (" ++ j ++ ")", s1)
  else if truthy target then
    let (ph, s1) := pgValue (sub_param ctx.query_params target) true st
    .ok (ltab ++ "." ++ aatt ++ "=" ++ ph, s1)
  else if truthy target_type && isLst target_type then
    let (j, s1) := bindJoin ctx.query_params false (pgList target_type) st
    .ok (ltab ++ "." ++ aatt ++ "t IN (" ++ j ++ ")", s1)
  else if truthy target_type then
    let (ph, s1) := pgValue (sub_param ctx.query_params target_type) true st
    if has_tf then
      match tfc "ART." s1 with
      | .error e => .error e
      | .ok (tfs, s2) =>
        .ok (ltab ++ "." ++ aatt ++ "t=" ++ ph ++ " AND " ++ ltab ++ "." ++ aatt ++
          " IN (SELECT id from " ++ ctx.basetable ++ " AS ART WHERE " ++ tfs ++ ")", s2)
    else .ok (ltab ++ "." ++ aatt ++ "t=" ++ ph, s1)
  else if has_tf then
    match tfc "ART." st with
    | .error e => .error e
    | .ok (tfs, s2) =>
      .ok (ltab ++ "." ++ aatt ++ " IN (SELECT id from " ++ ctx.basetable ++
        " AS ART WHERE " ++ tfs ++ ")", s2)
  else .error (.badRequest "Must provide target or target_type")

/-- The recursive closure `assoc_level(lvnum, idcol)` of the ASSOP_ASSOCIATED
branch.  `rest` is the suffix of the (defaulted) direction string from level
`lvnum` on (so its head is `direction[lvnum]` and the source's recursion-end
test `len(direction) <= lvnum + 1` is `rest.length <= 1`); `dirlen` is the full
direction length used by the `lvpred` selection; `tfc` compiles the captured
target_filter at a given table prefix (the source closes over `self`). -/
def assoc_level (ctx : QCtx) (target target_type predicate : PgVal) (dirlen : Nat)
    (tfc : String → BState → Except PgError (String × BState)) (has_tf : Bool)
    (lvnum : Nat) (rest : List Char) (idcol : String) (st : BState) :
    Except PgError (String × BState) :=
  match rest with
  | [] => .error .indexError
  | lvdir :: restT =>
    let lvpred := if truthy predicate && decide (1 < dirlen) then pyIndex predicate lvnum
                  else predicate
    let ltab := "A" ++ Nat.repr lvnum
    if lvdir = 'S' ∨ lvdir = 'O' then
      let idatt := if lvdir = 'S' then "s" else "o"
      let aatt := if lvdir = 'S' then "o" else "s"
      let lv0 := idcol ++ " IN (SELECT " ++ ltab ++ "." ++ idatt ++ " FROM " ++
        ctx.basetable ++ "_assoc AS " ++ ltab ++ " WHERE "
      let inner : Except PgError (String × BState) :=
        if restT.isEmpty then
          assoc_leaf ctx target target_type tfc has_tf ltab aatt st
        else
          assoc_level ctx target target_type predicate dirlen tfc has_tf (lvnum + 1) restT
            (ltab ++ "." ++ aatt) st
      match inner with
      | .error e => .error e
      | .ok (ix, s1) =>
        let (px, s2) := assoc_pred_clause ctx.query_params ltab lvpred s1
        .ok (lv0 ++ ix ++ px ++ ")", s2)
    else if lvdir = 'A' then .error .notImplemented
    else .error (.badRequest "Illegal association direction: %s")

mutual
/-- `PostgresQueryBuilder._build_where(expr, table_prefix)` on a present
expression node: one case per source dispatch branch. -/
def build_where (ctx : QCtx) (e : QExpr) (tp : String) (st : BState) :
    Except PgError (String × BState) :=
  match e with
  | .cmp op attname value =>
    match is_standard_col ctx attname with
    | .error er => .error er
    | .ok true =>
      let (ph, s1) := pgValue (sub_param ctx.query_params value) true st
      .ok (tp ++ attname ++ cmpStr op ++ ph, s1)
    | .ok false =>
      let (p1, s1) := pgValue (PgVal.s attname) true st
      let (p2, s2) := pgValue (PgVal.s (pyStr (sub_param ctx.query_params value))) true s1
      .ok ("json_string(" ++ tp ++ "doc," ++ p1 ++ ")" ++ cmpStr op ++ p2, s2)
  | .xin attname values =>
    match is_standard_col ctx attname with
    | .error er => .error er
    | .ok true =>
      let (j, s1) := bindJoin ctx.query_params false values st
      .ok (tp ++ attname ++ " IN (" ++ j ++ ")", s1)
    | .ok false =>
      let (j, s1) := bindJoin ctx.query_params true values st
      let (pa, s2) := pgValue (PgVal.s attname) true s1
      .ok ("json_string(" ++ tp ++ "doc," ++ pa ++ ") IN (" ++ j ++ ")", s2)
  | .between attname v1 v2 =>
    match is_standard_col ctx attname with
    | .error er => .error er
    | .ok true =>
      let (p1, s1) := pgValue (sub_param ctx.query_params v1) true st
      let (p2, s2) := pgValue (sub_param ctx.query_params v2) true s1
      .ok (tp ++ attname ++ " BETWEEN " ++ p1 ++ " AND " ++ p2, s2)
    | .ok false =>
      let (pa, s1) := pgValue (PgVal.s attname) true st
      let (p1, s2) := pgValue (sub_param ctx.query_params v1) true s1
      let (p2, s3) := pgValue (sub_param ctx.query_params v2) true s2
      .ok ("json_string(" ++ tp ++ "doc," ++ pa ++ ") BETWEEN " ++ p1 ++ " AND " ++ p2, s3)
  | .attlike il attname value =>
    let (pa, s1) := pgValue (PgVal.s attname) true st
    let (pv, s2) := pgValue (sub_param ctx.query_params value) true s1
    .ok ("json_string(" ++ tp ++ "doc," ++ pa ++ ") " ++ (bif il then "ILIKE" else "LIKE") ++
      " " ++ pv, s2)
  | .allmatch value contains =>
    let (pv, s1) := pgValue (PgVal.s ("%" ++ pyStr (sub_param ctx.query_params value) ++ "%"))
      true st
    if contains then .ok ("json_allattr(" ++ tp ++ "doc) LIKE " ++ pv, s1)
    else .ok ("json_allattr(" ++ tp ++ "doc) ILIKE " ++ pv, s1)
  | .keyword value =>
    let kw := if isLst value then value else PgVal.lst [value]
    let (ph, s1) := pgValue kw false st
    .ok (ph ++ " <@ json_keywords(" ++ tp ++ "doc)", s1)
  | .altid ns aid =>
    let (nsv, s1) :=
      if isLst ns then pgValue ns false st
      else pgValue (PgVal.lst [sub_param ctx.query_params ns]) false st
    let (aidv, s2) :=
      if isLst aid then pgValue aid false s1
      else pgValue (PgVal.lst [sub_param ctx.query_params aid]) false s1
    if !truthy aid && !truthy ns then
      .ok ("json_altids_ns(" ++ tp ++ "doc) IS NOT null", s2)
    else if truthy aid && !truthy ns then
      .ok (aidv ++ " <@ json_altids_id(" ++ tp ++ "doc)", s2)
    else if truthy ns && !truthy aid then
      .ok (nsv ++ " <@ json_altids_ns(" ++ tp ++ "doc)", s2)
    else
      .ok (aidv ++ " <@ json_altids_id(" ++ tp ++ "doc) AND " ++ nsv ++
        " <@ json_altids_ns(" ++ tp ++ "doc)", s2)
  | .rop op colname x1 y1 =>
    let bound := "[" ++ pyStr (sub_param ctx.query_params x1) ++ "," ++
      pyStr (sub_param ctx.query_params y1) ++ "]"
    let (ph, s1) := pgValue (PgVal.s bound) true st
    .ok (tp ++ colname ++ " " ++ ropStr op ++ " " ++ ph ++ "::numrange", s1)
  | .gdistance colname px py dist cop =>
    let (p1, s1) := pgValue (sub_param ctx.query_params px) true st
    let (p2, s2) := pgValue (sub_param ctx.query_params py) true s1
    let (p3, s3) := pgValue (sub_param ctx.query_params dist) true s2
    .ok ("ST_Distance_Sphere(" ++ tp ++ colname ++ ", ST_SetSRID(ST_Point(" ++ p1 ++ ", " ++
      p2 ++ "),4326)) " ++ cmpStr cop ++ " " ++ p3, s3)
  | .ggeom op colname wkt buf =>
    match geomFromWkt wkt buf with
    | .error er => .error er
    | .ok g => .ok (gopStr op (tp ++ colname) g, st)
  | .gbbox op colname x1 y1 x2 y2 =>
    let (p1, s1) := pgValue x1 true st
    let (p2, s2) := pgValue y1 true s1
    let (p3, s3) := pgValue x2 true s2
    let (p4, s4) := pgValue y2 true s3
    .ok (tp ++ colname ++ " " ++ bboxStr op ++ " ST_MakeEnvelope(" ++ p1 ++ "," ++ p2 ++ "," ++
      p3 ++ "," ++ p4 ++ ",4326)", s4)
  | .qand args =>
    match build_where_list ctx args tp " AND " st with
    | .error er => .error er
    | .ok (j, s1) => .ok ("(" ++ j ++ ")", s1)
  | .qor args =>
    match build_where_list ctx args tp " OR " st with
    | .error er => .error er
    | .ok (j, s1) => .ok ("(" ++ j ++ ")", s1)
  | .qnot ex =>
    match build_where ctx ex tp st with
    | .error er => .error er
    | .ok (f, s1) => .ok ("NOT (" ++ f ++ ")", s1)
  | .associated target target_type predicate direction tf =>
    match assoc_validate target target_type predicate direction tf.isSome with
    | .error er => .error er
    | .ok dir =>
      assoc_level ctx target target_type predicate dir.length
        (fun pre st2 => build_where_opt ctx tf pre st2) tf.isSome 0 dir.data "id" st
  | .descend via_obj target target_type predicate max_depth =>
    let assoc_table := if strEnds ctx.basetable "_assoc" then ctx.basetable
      else ctx.basetable ++ "_assoc"
    let pred1 := descWrap predicate
    let (predval, s1) := if truthy pred1 then
        bindJoin ctx.query_params false (pgList pred1) st
      else ("", st)
    let ttype1 := descWrap target_type
    let (ttypeval, s2) := if truthy ttype1 then
        bindJoin ctx.query_params false (pgList ttype1) s1
      else ("", s1)
    let idatt := if via_obj then "s" else "o"
    let aatt := if via_obj then "o" else "s"
    let (tph, s3) := pgValue (sub_param ctx.query_params target) true s2
    let (dph, s4) := if 0 < max_depth then pgValue (PgVal.i max_depth) true s3 else ("", s3)
    .ok ("id IN (" ++ "WITH RECURSIVE ch_res(chid, path, depth, cycle) AS (" ++
      "SELECT " ++ aatt ++ ", ARRAY[id::text], 1, false FROM " ++ assoc_table ++
      " WHERE " ++ idatt ++ "=" ++ tph ++
      (if truthy pred1 then " AND p IN (" ++ predval ++ ")" else "") ++
      (if truthy ttype1 then " AND " ++ aatt ++ "t IN (" ++ ttypeval ++ ")" else "") ++
      " UNION ALL " ++
      "SELECT ass." ++ aatt ++
      ", ARRAY[ass.id::text] || ch.path, ch.depth + 1, ass.id=ANY(ch.path) FROM ch_res ch, " ++
      assoc_table ++ " ass" ++
      " WHERE ass." ++ idatt ++ " = ch.chid AND NOT ch.cycle" ++
      (if 0 < max_depth then " AND ch.depth<" ++ dph else "") ++
      (if truthy pred1 then " AND ass.p IN (" ++ predval ++ ")" else "") ++
      (if truthy ttype1 then " AND " ++ aatt ++ "t IN (" ++ ttypeval ++ ")" else "") ++
      (if strEnds ctx.basetable "_assoc" then ") SELECT path[1] FROM ch_res)"
       else ") SELECT chid FROM ch_res)"), s4)

/-- `_build_where` at its entry point: a missing/None expression compiles to
the empty string (`if not expr: return ""`). -/
def build_where_opt (ctx : QCtx) (e : Option QExpr) (tp : String) (st : BState) :
    Except PgError (String × BState) :=
  match e with
  | Option.none => .ok ("", st)
  | some ex => build_where ctx ex tp st

/-- The joined recursive compiles of EXP_AND / EXP_OR child lists. -/
def build_where_list (ctx : QCtx) (es : List QExpr) (tp : String) (sep : String)
    (st : BState) : Except PgError (String × BState) :=
  match es with
  | [] => .ok ("", st)
  | [e] => build_where ctx e tp st
  | e :: f :: fs =>
    match build_where ctx e tp st with
    | .error er => .error er
    | .ok (x, s1) =>
      match build_where_list ctx (f :: fs) tp sep s1 with
      | .error er => .error er
      | .ok (r, s2) => .ok (x ++ sep ++ r, s2)
end

/-- `_build_order_by`: "col DESC" for an exact case-insensitive "desc" sort
direction, "col ASC" otherwise, comma-joined; empty/None input gives "". -/
def build_order_by (expr : List (String × String)) : String :=
  match expr with
  | [] => ""
  | _ => joinSep "," (expr.map (fun p => p.1 ++ " " ++
      (if strLower p.2 = "desc" then "DESC" else "ASC")))

/-- First index at which `sub` occurs in `l` (Python `str.find`, scanning from
the left), counting from `i`. -/
def findSubAux : List Char → List Char → Nat → Option Nat
  | [], sub, i => if sub.isPrefixOf ([] : List Char) then some i else Option.none
  | l@(_ :: t), sub, i => if sub.isPrefixOf l then some i else findSubAux t sub (i + 1)

/-- Python `s.find(sub)` as an Option (None for -1). -/
def findSubstr (s sub : String) : Option Nat := findSubAux s.data sub.data 0

/-- The FROM-table loop of the complex-format constructor branch: tables with
an inline " as " alias keep it, others are auto-aliased t0, t1, ...; returns
the extended FROM text and alias list. -/
def addFroms (fts : List String) (i : Nat) (ft : String) (al : List String) :
    String × List String :=
  match fts with
  | [] => (ft, al)
  | t :: ts =>
    match findSubstr (strLower t) " as " with
    | some k => addFroms ts (i + 1) (ft ++ "," ++ t) (al ++ [t.drop (k + 4)])
    | Option.none =>
      let fa := "t" ++ Nat.repr i
      addFroms ts (i + 1) (ft ++ "," ++ t ++ " as " ++ fa) (al ++ [fa])

/-- Output-format tag of the query arguments.  The raw-SQL format ("sql"),
whose constructor branch passes caller-supplied clause strings through with no
WHERE compilation, is outside this model; `complex` and `plain` cover the two
compiled shapes. -/
inductive QFormat where
  | complex
  | plain
deriving DecidableEq, Repr

/-- The `query_args` mapping (with the source's `.get` defaults made
explicit fields). -/
structure QueryArgs where
  profile : DSProfile
  datastore : String
  ds_sub : String
  format : QFormat
  id_only : Bool
  limit : Int
  skip : Int

/-- The QuerySpec dict consumed by the constructor.  `returns` models the
source's list whose head may be the literal True (extend-the-defaults
sentinel): the Bool is that head-is-True test, the list is `returns[1:]`;
None stands for a missing or empty (falsy) list. -/
structure Query where
  query_args : QueryArgs
  whereQ : Option QExpr
  order_by : List (String × String)
  returns : Option (Bool × List String)
  fromQ : List String
  where_join : List String
  group_by : Option String
  having : Option String
  query_params : List (String × PgVal)

/-- Builder fields set by `PostgresQueryBuilder.__init__` and read by
`get_query` / `get_values`. -/
structure PGB where
  basetable : String
  from_tables : String
  state : BState
  cols : List String
  table_aliases : List String
  has_basic_cols : Bool
  whereS : String
  order_byS : String
  group_by : Option String
  having : Option String
  qargs : QueryArgs

/-- Python truthiness of an optional clause string. -/
def optTruthy : Option String → Bool
  | Option.none => false
  | some s => s != ""

/-- `PostgresQueryBuilder.__init__(query, basetable)` for the two compiled
formats (`DatastoreQueryBuilder.check_query`, defined outside the packaged
sources, validates the query dict shape; the typed `Query` enforces that
statically).  In the plain branch the basetable is suffixed with the ds_sub
sub-table name before the WHERE clause is compiled, so association/descendant
sub-queries see the suffixed name. -/
def mkBuilder (q : Query) (basetable : String) : Except PgError PGB :=
  match q.query_args.format with
  | .complex =>
    let cols0 := ["base.id"] ++ (if q.query_args.id_only then [] else ["base.doc"])
    let (cols, hbc) :=
      match q.returns with
      | Option.none => (cols0, true)
      | some pr => if pr.1 then (cols0 ++ pr.2, true) else (pr.2, false)
    let (ftabs, aliases) := addFroms q.fromQ 0 (basetable ++ " AS base") ["base"]
    let ctx : QCtx := ⟨basetable, q.query_args.profile, q.query_args.datastore,
      q.query_args.ds_sub, q.query_params⟩
    match build_where_opt ctx q.whereQ "" ⟨0, []⟩ with
    | .error er => .error er
    | .ok (w, st) =>
      let ws := if q.where_join.isEmpty then w
        else "(" ++ w ++ ") AND ((" ++ joinSep ") AND (" q.where_join ++ "))"
      .ok ⟨basetable, ftabs, st, cols, aliases, hbc, ws, build_order_by q.order_by,
        q.group_by, q.having, q.query_args⟩
  | .plain =>
    let bt := if q.query_args.ds_sub != "" then basetable ++ "_" ++ q.query_args.ds_sub
      else basetable
    let cols := ["id"] ++ (if q.query_args.id_only then [] else ["doc"])
    let ctx : QCtx := ⟨bt, q.query_args.profile, q.query_args.datastore,
      q.query_args.ds_sub, q.query_params⟩
    match build_where_opt ctx q.whereQ "" ⟨0, []⟩ with
    | .error er => .error er
    | .ok (w, st) =>
      .ok ⟨bt, bt, st, cols, [bt], true, w, build_order_by q.order_by,
        Option.none, Option.none, q.query_args⟩

/-- `PostgresQueryBuilder.get_query`: assemble the final statement text.
LIMIT/OFFSET are emitted only for strictly positive values and are inlined
with `str(...)`, not placeholder-bound. -/
def get_query (b : PGB) : String :=
  "SELECT " ++ joinSep "," b.cols ++ " FROM " ++ b.from_tables ++
  (if b.whereS != "" then " WHERE " ++ b.whereS else "") ++
  (if optTruthy b.group_by then
    " GROUP BY " ++ b.group_by.getD "" ++
    (if optTruthy b.having then " HAVING " ++ b.having.getD "" else "")
   else "") ++
  (if b.order_byS != "" then " ORDER BY " ++ b.order_byS else "") ++
  (if 0 < b.qargs.limit then " LIMIT " ++ toString b.qargs.limit else "") ++
  (if 0 < b.qargs.skip then " OFFSET " ++ toString b.qargs.skip else "")

/-- `PostgresQueryBuilder.get_values`: the accumulated placeholder binding. -/
def get_values (b : PGB) : List (String × PgVal) := b.state.values

/-- `PostgresQueryBuilder.get_base_alias`. -/
def get_base_alias (_b : PGB) : String := "base"

/-- Placeholder name generated for counter value `k` ("v1", "v2", ...). -/
def mkName (k : Nat) : String := "v" ++ Nat.repr k

/-- Well-formedness of the builder state: every stored placeholder name was
generated from some counter value between 1 and the current counter.  Holds
for the fresh state and is preserved by every bind. -/
def stateInv (st : BState) : Prop :=
  ∀ p ∈ st.values, ∃ k, 1 ≤ k ∧ k ≤ st.valcnt ∧ p.1 = mkName k

mutual
/-- Characters of the attribute/column names spliced verbatim into SQL text
by `_build_where` (literal values are excluded: they are placeholder-bound on
every branch except the named-geometry one). -/
def attChars : QExpr → List Char
  | .cmp _ a _ => a.data
  | .xin a _ => a.data
  | .between a _ _ => a.data
  | .attlike _ a _ => a.data
  | .allmatch _ _ => []
  | .keyword _ => []
  | .altid _ _ => []
  | .rop _ c _ _ => c.data
  | .gdistance c _ _ _ _ => c.data
  | .ggeom _ c _ _ => c.data
  | .gbbox _ c _ _ _ _ => c.data
  | .qand es => attCharsL es
  | .qor es => attCharsL es
  | .qnot e => attChars e
  | .associated _ _ _ _ tf => attCharsO tf
  | .descend _ _ _ _ _ => []

/-- attChars over a child list. -/
def attCharsL : List QExpr → List Char
  | [] => []
  | e :: es => attChars e ++ attCharsL es

/-- attChars over an optional sub-filter. -/
def attCharsO : Option QExpr → List Char
  | Option.none => []
  | some e => attChars e
end

mutual
/-- True when the tree contains no named-geometry (GOP_*_GEOM) node — the one
branch that inlines caller literals (WKT text, buffer distance) into SQL. -/
def geomFree : QExpr → Bool
  | .ggeom _ _ _ _ => false
  | .qand es => geomFreeL es
  | .qor es => geomFreeL es
  | .qnot e => geomFree e
  | .associated _ _ _ _ tf => geomFreeO tf
  | _ => true

/-- geomFree over a child list. -/
def geomFreeL : List QExpr → Bool
  | [] => true
  | e :: es => geomFree e && geomFreeL es

/-- geomFree over an optional sub-filter. -/
def geomFreeO : Option QExpr → Bool
  | Option.none => true
  | some e => geomFree e
end

/-- The compiler's fixed output alphabet: every character the WHERE compiler
and statement assembler emit on their own (SQL keywords, function names,
placeholder syntax, digits, operators).  Quote, double-quote, semicolon and
backslash are deliberately absent: outside the named-geometry branch the
compiler can never emit them, so no literal containing one can leak into SQL. -/
def FIXED : List Char :=
  ("abcdefghijklmnopqrstuvwxyzABCDEFGHIJKLMNOPQRSTUVWXYZ0123456789 %()=<>~*&@,.[]:_|+").data

/-- True exactly when a compilation result is the InvalidQuery (BadRequest)
error kind. -/
def isInvalidQuery {α : Type} : Except PgError α → Bool
  | .error (.badRequest _) => true
  | _ => false

/-- Decimal digit list of a natural number (most significant first); the
reference implementation against which core's fuelled `Nat.toDigitsCore` is
proved, to reason about generated placeholder names. -/
def myDigits (n : Nat) : List Char :=
  if n / 10 = 0 then [Nat.digitChar (n % 10)]
  else myDigits (n / 10) ++ [Nat.digitChar (n % 10)]
decreasing_by exact Nat.div_lt_self (by omega) (by omega)

/-- Decode a decimal digit list back to the number (left inverse used to show
`Nat.repr` is injective, hence placeholder names never collide). -/
def decodeDigits (cs : List Char) : Nat :=
  cs.foldl (fun a c => 10 * a + (c.toNat - 48)) 0

/-- Characters of an optional clause string. -/
def optChars : Option String → List Char
  | Option.none => []
  | some s => s.data

/-- Characters of a list of caller-supplied strings. -/
def strsChars (l : List String) : List Char := l.foldr (fun s acc => s.data ++ acc) []

/-- Characters of the `returns` override columns. -/
def retChars : Option (Bool × List String) → List Char
  | Option.none => []
  | some pr => strsChars pr.2

/-- Every caller-supplied non-literal text source a compiled statement may
draw characters from: the base table name, the sub-table suffix, attribute and
column names inside the where tree, FROM table references, raw where_join
fragments, returns overrides, order-by column names, and group/having
clauses.  Literal values and query_params are deliberately not included. -/
def qSrcChars (q : Query) (bt : String) : List Char :=
  bt.data ++ q.query_args.ds_sub.data ++ attCharsO q.whereQ ++ strsChars q.fromQ ++
  strsChars q.where_join ++ retChars q.returns ++ strsChars (q.order_by.map Prod.fst) ++
  optChars q.group_by ++ optChars q.having

example :
    build_where ⟨"res", .RESOURCES, "", "", []⟩
      (.qand [.cmp .eq "name" (.s "x"), .cmp .eq "lcstate" (.s "y")]) "" ⟨0, []⟩ =
    .ok ("(name=%(v1)s AND lcstate=%(v2)s)",
      ⟨2, [("v1", .s "x"), ("v2", .s "y")]⟩) := rfl

example :
    build_where ⟨"res", .RESOURCES, "", "", []⟩
      (.associated (.s "T") .none .none "SO" Option.none) "" ⟨0, []⟩ =
    .ok ("id IN (SELECT A0.s FROM res_assoc AS A0 WHERE A0.o IN (SELECT A1.o FROM res_assoc AS A1 WHERE A1.s=%(v1)s))",
      ⟨1, [("v1", .s "T")]⟩) := rfl

theorem toDigitsCore_eq_myDigits : ∀ (f n : Nat) (ds : List Char), n < 10 ^ (f + 1) →
    Nat.toDigitsCore 10 (f + 1) n ds = myDigits n ++ ds := by
  intro f
  induction f with
  | zero =>
    intro n ds h
    have h10 : n / 10 = 0 := by omega
    rw [Nat.toDigitsCore]
    simp only [h10, if_pos]
    rw [myDigits, if_pos h10]
    simp
  | succ f ih =>
    intro n ds h
    rw [Nat.toDigitsCore]
    by_cases h10 : n / 10 = 0
    · simp only [h10, if_pos]
      rw [myDigits, if_pos h10]
      simp
    · simp only [h10, if_false]
      have hb : n / 10 < 10 ^ (f + 1) := by
        apply Nat.div_lt_of_lt_mul
        rw [pow_succ] at h
        omega
      rw [ih (n / 10) _ hb]
      conv_rhs => rw [myDigits, if_neg h10]
      simp

theorem repr_eq_myDigits (n : Nat) : Nat.repr n = (myDigits n).asString := by
  have hlt : n < 10 ^ (n + 1) :=
    (Nat.lt_pow_self (by omega) n).trans_le (Nat.pow_le_pow_right (by omega) (by omega))
  rw [Nat.repr, Nat.toDigits, toDigitsCore_eq_myDigits n n [] hlt]
  simp

theorem digitChar_toNat (d : Nat) (h : d < 10) : (Nat.digitChar d).toNat = 48 + d := by
  interval_cases d <;> decide

theorem foldl_myDigits (n : Nat) : ∀ a : Nat,
    (myDigits n).foldl (fun a c => 10 * a + (c.toNat - 48)) a =
      a * 10 ^ (myDigits n).length + n := by
  induction n using Nat.strong_induction_on with
  | _ n ih =>
    intro a
    rw [myDigits]
    by_cases h10 : n / 10 = 0
    · rw [if_pos h10]
      have hn : n < 10 := by omega
      simp [List.foldl, digitChar_toNat (n % 10) (by omega)]
      omega
    · rw [if_neg h10]
      rw [List.foldl_append]
      rw [ih (n / 10) (Nat.div_lt_self (by omega) (by omega)) a]
      simp only [List.foldl, digitChar_toNat (n % 10) (by omega), List.length_append,
        List.length_cons, List.length_nil]
      have := Nat.div_add_mod n 10
      rw [pow_succ]
      ring_nf
      omega

theorem decode_myDigits (n : Nat) : decodeDigits (myDigits n) = n := by
  rw [decodeDigits, foldl_myDigits]
  simp

theorem myDigits_inj {m n : Nat} (h : myDigits m = myDigits n) : m = n := by
  have := decode_myDigits m
  rw [h, decode_myDigits] at this
  omega

theorem natRepr_inj {m n : Nat} (h : Nat.repr m = Nat.repr n) : m = n := by
  rw [repr_eq_myDigits, repr_eq_myDigits] at h
  apply myDigits_inj
  have : (myDigits m).asString.data = (myDigits n).asString.data := by rw [h]
  simpa [List.asString] using this

theorem myDigits_digits (n : Nat) : ∀ c ∈ myDigits n, c ∈ ("0123456789" : String).data := by
  induction n using Nat.strong_induction_on with
  | _ n ih =>
    rw [myDigits]
    by_cases h10 : n / 10 = 0
    · rw [if_pos h10]
      intro c hc
      simp at hc
      subst hc
      have h9 : n % 10 < 10 := by omega
      interval_cases h : (n % 10) <;> simp_all <;> decide
    · rw [if_neg h10]
      intro c hc
      simp at hc
      rcases hc with hc | hc
      · exact ih (n / 10) (Nat.div_lt_self (by omega) (by omega)) c hc
      · subst hc
        have h9 : n % 10 < 10 := by omega
        interval_cases h : (n % 10) <;> decide

theorem natRepr_digits (n : Nat) : ∀ c ∈ (Nat.repr n).data, c ∈ ("0123456789" : String).data := by
  rw [repr_eq_myDigits]
  simpa [List.asString] using myDigits_digits n

theorem mkName_inj {m n : Nat} (h : mkName m = mkName n) : m = n := by
  apply natRepr_inj
  have hd := congrArg String.data h
  simp only [mkName, String.data_append] at hd
  apply String.ext
  simpa using hd

theorem mkName_chars (k : Nat) : ∀ c ∈ (mkName k).data, c ∈ FIXED := by
  intro c hc
  rw [mkName] at hc
  simp only [String.data_append] at hc
  rcases List.mem_append.mp hc with h | h
  · have hall : ∀ x ∈ ("v" : String).data, x ∈ FIXED := by decide
    exact hall c h
  · have hdig : ∀ x ∈ ("0123456789" : String).data, x ∈ FIXED := by decide
    exact hdig c (natRepr_digits k c h)

theorem pgValue_scalar (v : PgVal) (h : (truthy v && isLst v) = false) (st : BState) :
    pgValue v true st = bindOne v st := by
  cases v with
  | lst vs =>
    cases vs with
    | nil => rfl
    | cons x xs => simp [truthy, isLst] at h
  | s w => rfl
  | i w => rfl
  | b w => rfl
  | none => rfl

theorem pgValue_spec : ∀ (v : PgVal) (fl : Bool) (st : BState),
    ∃ out ents, pgValue v fl st = (out, ⟨st.valcnt + ents.length, st.values ++ ents⟩) ∧
      ents.map Prod.fst = (List.range' (st.valcnt + 1) ents.length).map mkName ∧
      1 ≤ ents.length := by
  apply pgValue.induct
    (motive_2 := fun vs st => ∃ out ents,
      pgValueJoin vs st = (out, ⟨st.valcnt + ents.length, st.values ++ ents⟩) ∧
      ents.map Prod.fst = (List.range' (st.valcnt + 1) ents.length).map mkName ∧
      vs.length ≤ ents.length)
  case _ =>
    intro st x xs ih
    obtain ⟨out, ents, h1, h2, h3⟩ := ih
    exact ⟨out, ents, h1, h2, le_trans (by simp) h3⟩
  case _ =>
    intro fl st v hne
    have hbv : pgValue v fl st = bindOne v st := by
      cases v with
      | lst vs =>
        cases vs with
        | nil => cases fl <;> rfl
        | cons x xs =>
          cases fl with
          | false => rfl
          | true => exact absurd (hne x xs rfl rfl) (by simp)
      | s w => cases fl <;> rfl
      | i w => cases fl <;> rfl
      | b w => cases fl <;> rfl
      | none => cases fl <;> rfl
    refine ⟨"%(" ++ mkName (st.valcnt + 1) ++ ")s", [(mkName (st.valcnt + 1), v)], ?_, ?_, ?_⟩
    · rw [hbv]; rfl
    · simp
    · simp
  case _ =>
    intro st
    exact ⟨"", [], by simp [pgValueJoin], by simp, by simp⟩
  case _ =>
    intro st x ih
    obtain ⟨out, ents, h1, h2, h3⟩ := ih
    exact ⟨out, ents, h1, h2, by simpa using h3⟩
  case _ =>
    intro st x y xs r s2 hx r2 s3 hj ih1 ih2
    obtain ⟨o1, e1, h11, h12, h13⟩ := ih1
    obtain ⟨o2, e2, h21, h22, h23⟩ := ih2
    rw [hx] at h11
    rw [hj] at h21
    have ho1 : r = o1 := by injection h11
    have hs2 : s2 = BState.mk (st.valcnt + e1.length) (st.values ++ e1) := by
      injection h11
    have ho2 : r2 = o2 := by injection h21
    have hs3 : s3 = BState.mk (s2.valcnt + e2.length) (s2.values ++ e2) := by
      injection h21
    refine ⟨o1 ++ "," ++ o2, e1 ++ e2, ?_, ?_, ?_⟩
    · have key : pgValueJoin (x :: y :: xs) st = (r ++ "," ++ r2, s3) := by
        simp only [pgValueJoin, hx, hj]
      rw [key, ho1, ho2, hs3, hs2]
      simp only [List.length_append, Nat.add_assoc, List.append_assoc]
    · rw [List.map_append, h12]
      rw [hs2] at h22
      simp only at h22
      rw [h22, ← List.map_append]
      congr 1
      have hra := List.range'_append (st.valcnt + 1) e1.length e2.length 1
      simp only [one_mul] at hra
      have hre : st.valcnt + e1.length + 1 = st.valcnt + 1 + e1.length := by omega
      rw [List.length_append, hre, hra]
      congr 1
      omega
    · simp only [List.length_cons, List.length_append] at h23 ⊢
      omega

theorem stateInv_empty : stateInv ⟨0, []⟩ := by
  intro p hp
  simp at hp

theorem mkName_fresh (st : BState) (hinv : stateInv st) (j : Nat) (hj : st.valcnt < j) :
    mkName j ∉ st.values.map Prod.fst := by
  intro hmem
  obtain ⟨p, hp, hpe⟩ := List.mem_map.mp hmem
  obtain ⟨k, hk1, hk2, hk3⟩ := hinv p hp
  rw [hk3] at hpe
  have := mkName_inj hpe
  omega

theorem stateInv_pgValue (v : PgVal) (fl : Bool) (st : BState) (hinv : stateInv st) :
    stateInv (pgValue v fl st).2 := by
  obtain ⟨out, ents, h1, h2, _⟩ := pgValue_spec v fl st
  rw [h1]
  intro p hp
  simp only at hp
  rcases List.mem_append.mp hp with h | h
  · obtain ⟨k, hk1, hk2, hk3⟩ := hinv p h
    obtain ⟨o2, e2, _, _, _⟩ := pgValue_spec v fl st
    exact ⟨k, hk1, by simp; omega, hk3⟩
  · have : p.1 ∈ ents.map Prod.fst := List.mem_map_of_mem Prod.fst h
    rw [h2] at this
    obtain ⟨k, hk, hke⟩ := List.mem_map.mp this
    have hkr := List.mem_range'_1.mp hk
    exact ⟨k, by omega, by simp; omega, hke.symm⟩

theorem bindOne_eq (v : PgVal) (st : BState) :
    bindOne v st = ("%(" ++ mkName (st.valcnt + 1) ++ ")s",
      ⟨st.valcnt + 1, st.values ++ [(mkName (st.valcnt + 1), v)]⟩) := rfl

/-- C3: within one compilation every binder call yields a placeholder name
distinct from all previously produced names, names are generated in strictly
increasing sequence order (v1, v2, ...), and binding the same literal value
twice produces two distinct placeholders both present in the returned value
mapping: flattening the literal list [a, a, b] consumes counter values
valcnt+1, valcnt+2, valcnt+3 in order, producing three pairwise distinct
names, each bound in the mapping (a twice under two different names), and
every name with index above the current counter is absent from all values
recorded so far. -/
theorem pgq_C3_placeholder_uniqueness (a b : PgVal) (st : BState) (hinv : stateInv st)
    (ha : (truthy a && isLst a) = false) (hb : (truthy b && isLst b) = false) :
    pgValue (.lst [a, a, b]) true st =
      ("%(" ++ mkName (st.valcnt + 1) ++ ")s" ++ "," ++
        ("%(" ++ mkName (st.valcnt + 2) ++ ")s" ++ "," ++ ("%(" ++ mkName (st.valcnt + 3) ++ ")s")),
       ⟨st.valcnt + 3, st.values ++ [(mkName (st.valcnt + 1), a), (mkName (st.valcnt + 2), a),
         (mkName (st.valcnt + 3), b)]⟩) ∧
    (mkName (st.valcnt + 1) ≠ mkName (st.valcnt + 2) ∧
     mkName (st.valcnt + 1) ≠ mkName (st.valcnt + 3) ∧
     mkName (st.valcnt + 2) ≠ mkName (st.valcnt + 3)) ∧
    (∀ j, st.valcnt < j → mkName j ∉ st.values.map Prod.fst) := by
  refine ⟨?_, ⟨?_, ?_, ?_⟩, mkName_fresh st hinv⟩
  · have e1 : pgValue a true st =
        ("%(" ++ mkName (st.valcnt + 1) ++ ")s",
         ⟨st.valcnt + 1, st.values ++ [(mkName (st.valcnt + 1), a)]⟩) := by
      rw [pgValue_scalar a ha, bindOne_eq]
    have e2 : pgValue a true ⟨st.valcnt + 1, st.values ++ [(mkName (st.valcnt + 1), a)]⟩ =
        ("%(" ++ mkName (st.valcnt + 2) ++ ")s",
         ⟨st.valcnt + 2, (st.values ++ [(mkName (st.valcnt + 1), a)]) ++
           [(mkName (st.valcnt + 2), a)]⟩) := by
      rw [pgValue_scalar a ha, bindOne_eq]
    have e3 : pgValue b true ⟨st.valcnt + 2, (st.values ++ [(mkName (st.valcnt + 1), a)]) ++
        [(mkName (st.valcnt + 2), a)]⟩ =
        ("%(" ++ mkName (st.valcnt + 3) ++ ")s",
         ⟨st.valcnt + 3, ((st.values ++ [(mkName (st.valcnt + 1), a)]) ++
           [(mkName (st.valcnt + 2), a)]) ++ [(mkName (st.valcnt + 3), b)]⟩) := by
      rw [pgValue_scalar b hb, bindOne_eq]
    have h0 : pgValue (PgVal.lst [a, a, b]) true st = pgValueJoin [a, a, b] st := rfl
    rw [h0]
    simp only [pgValueJoin, e1, e2, e3]
    simp [List.append_assoc]
  · intro h; have := mkName_inj h; omega
  · intro h; have := mkName_inj h; omega
  · intro h; have := mkName_inj h; omega

/-- Witness for C3 at a concrete input: [a, a, b] := ["a", "a", "b"] from the
fresh builder state yields %(v1)s,%(v2)s,%(v3)s with three distinct names all
present in the mapping. -/
theorem pgq_C3_placeholder_uniqueness_w :
    pgValue (.lst [.s "a", .s "a", .s "b"]) true ⟨0, []⟩ =
      ("%(v1)s,%(v2)s,%(v3)s",
       ⟨3, [("v1", .s "a"), ("v2", .s "a"), ("v3", .s "b")]⟩) ∧
    ("v1" ≠ "v2" ∧ "v1" ≠ "v3" ∧ "v2" ≠ "v3") := by
  have h := pgq_C3_placeholder_uniqueness (.s "a") (.s "b") ⟨0, []⟩ stateInv_empty rfl rfl
  exact ⟨h.1, h.2.1⟩

/-- C7: template-parameter resolution policy of `_sub_param`: with a
non-empty query_params mapping, a "$(name)" literal whose name is absent
resolves silently to None (and `_sub_param` is total, so compilation cannot
fail there); with no query_params at all, or for any string that is not a
template reference, or for any non-string literal, the value passes through
unchanged. -/
theorem pgq_C7_template_params (qp : List (String × PgVal)) (v : PgVal) :
    (∀ sv, qp ≠ [] → v = .s sv →
      (sv != "" && strStarts sv "$(" && strEnds sv ")") = true →
      qp.lookup ((sv.drop 2).dropRight 1) = Option.none →
      sub_param qp v = .none) ∧
    (qp = [] → sub_param qp v = v) ∧
    (∀ sv, v = .s sv → (sv != "" && strStarts sv "$(" && strEnds sv ")") = false →
      sub_param qp v = v) ∧
    ((∀ sv, v ≠ .s sv) → sub_param qp v = v) := by
  refine ⟨?_, ?_, ?_, ?_⟩
  · intro sv hqp hv htpl hlk
    subst hv
    have hne : qp.isEmpty = false := by
      cases qp with
      | nil => exact absurd rfl hqp
      | cons p ps => rfl
    simp [sub_param, hne, htpl, hlk]
  · intro h
    subst h
    simp [sub_param]
  · intro sv hv hnt
    subst hv
    by_cases hq : qp.isEmpty
    · simp [sub_param, hq]
    · simp [sub_param, hq, hnt]
  · intro hns
    cases v with
    | s sv => exact absurd rfl (hns sv)
    | i w => by_cases hq : qp.isEmpty <;> simp [sub_param, hq]
    | b w => by_cases hq : qp.isEmpty <;> simp [sub_param, hq]
    | none => by_cases hq : qp.isEmpty <;> simp [sub_param, hq]
    | lst ws => by_cases hq : qp.isEmpty <;> simp [sub_param, hq]

/-- Witness for C7: a missing template name resolves to None with a non-empty
mapping; the same literal passes through untouched with an empty mapping; a
non-string literal passes through untouched. -/
theorem pgq_C7_template_params_w :
    sub_param [("a", PgVal.i 1)] (.s "$(missing)") = PgVal.none ∧
    sub_param [] (.s "$(missing)") = .s "$(missing)" ∧
    sub_param [("a", PgVal.i 1)] (.i 7) = .i 7 :=
  ⟨(pgq_C7_template_params [("a", PgVal.i 1)] (.s "$(missing)")).1 "$(missing)"
      (by simp) rfl (by decide) rfl,
   (pgq_C7_template_params [] (.s "$(missing)")).2.1 rfl,
   ((pgq_C7_template_params [("a", PgVal.i 1)] (.i 7)).2.2.2) (by intro sv h; cases h)⟩

/-- C2 counterexample: on the standard-column branch a comparison whose value
is a (truthy) list is flattened into several placeholders, so the claim's
"one placeholder bound to the value" fails: EQ("name", ["x","y"]) under the
resource profile compiles to two placeholders, not to
"prefix+attribute OP single-placeholder". -/
theorem pgq_C2_column_routing_cex :
    build_where ⟨"res", .RESOURCES, "", "", []⟩
      (.cmp .eq "name" (.lst [.s "x", .s "y"])) "" ⟨0, []⟩ =
      .ok ("name=%(v1)s,%(v2)s", ⟨2, [("v1", .s "x"), ("v2", .s "y")]⟩) ∧
    "name=%(v1)s,%(v2)s" ≠ "name" ++ cmpStr .eq ++ "%(v1)s" :=
  ⟨rfl, by decide⟩

/-- C2 (amended): for a comparison predicate whose resolved value is not a
non-empty list (flattening aside), the whitelisted branch emits
prefix+attribute OP placeholder with that one placeholder bound to the
resolved value, and the non-whitelisted branch always emits a json_string
call over the document column with exactly two placeholders, the first bound
to the attribute name, the second to str of the resolved value. -/
theorem pgq_C2_column_routing (ctx : QCtx) (op : CmpOp) (attname : String) (value : PgVal)
    (tp : String) (st : BState) :
    (is_standard_col ctx attname = .ok true →
      (truthy (sub_param ctx.query_params value) &&
        isLst (sub_param ctx.query_params value)) = false →
      build_where ctx (.cmp op attname value) tp st =
        .ok (tp ++ attname ++ cmpStr op ++ ("%(" ++ mkName (st.valcnt + 1) ++ ")s"),
          ⟨st.valcnt + 1,
           st.values ++ [(mkName (st.valcnt + 1), sub_param ctx.query_params value)]⟩)) ∧
    (is_standard_col ctx attname = .ok false →
      build_where ctx (.cmp op attname value) tp st =
        .ok ("json_string(" ++ tp ++ "doc," ++ ("%(" ++ mkName (st.valcnt + 1) ++ ")s") ++ ")" ++
            cmpStr op ++ ("%(" ++ mkName (st.valcnt + 2) ++ ")s"),
          ⟨st.valcnt + 2,
           st.values ++ [(mkName (st.valcnt + 1), .s attname),
             (mkName (st.valcnt + 2), .s (pyStr (sub_param ctx.query_params value)))]⟩)) := by
  constructor
  · intro hstd hft
    simp only [build_where, hstd]
    rw [pgValue_scalar _ hft, bindOne_eq]
  · intro hstd
    simp only [build_where, hstd]
    rw [show pgValue (PgVal.s attname) true st = bindOne (PgVal.s attname) st from rfl,
      bindOne_eq]
    rw [show pgValue (PgVal.s (pyStr (sub_param ctx.query_params value))) true
        (⟨st.valcnt + 1, st.values ++ [(mkName (st.valcnt + 1), PgVal.s attname)]⟩ : BState) =
      bindOne (PgVal.s (pyStr (sub_param ctx.query_params value)))
        ⟨st.valcnt + 1, st.values ++ [(mkName (st.valcnt + 1), PgVal.s attname)]⟩ from rfl,
      bindOne_eq]
    simp [List.append_assoc]

/-- Witness for C2 (amended), the spec's own example: EQ("custom_attr","bar")
under the resource profile (not whitelisted) compiles to
json_string(doc,%(v1)s)=%(v2)s with binding v1 = "custom_attr", v2 = "bar". -/
theorem pgq_C2_column_routing_w :
    build_where ⟨"res", .RESOURCES, "", "", []⟩ (.cmp .eq "custom_attr" (.s "bar")) "" ⟨0, []⟩ =
      .ok ("json_string(doc,%(v1)s)=%(v2)s",
        ⟨2, [("v1", .s "custom_attr"), ("v2", .s "bar")]⟩) := by
  have h := (pgq_C2_column_routing ⟨"res", .RESOURCES, "", "", []⟩ .eq "custom_attr"
    (.s "bar") "" ⟨0, []⟩).2 rfl
  exact h

theorem coerce_true_scalar (qp : List (String × PgVal)) (v : PgVal) :
    (truthy (coerceSub qp true v) && isLst (coerceSub qp true v)) = false := by
  simp [coerceSub, isLst]

theorem bindJoin_spec (qp : List (String × PgVal)) (co : Bool) : ∀ (vals : List PgVal),
    (∀ v ∈ vals, (truthy (coerceSub qp co v) && isLst (coerceSub qp co v)) = false) →
    ∀ (st : BState), ∃ out, bindJoin qp co vals st =
      (out, ⟨st.valcnt + vals.length,
        st.values ++ List.zipWith (fun k v => (mkName k, coerceSub qp co v))
          (List.range' (st.valcnt + 1) vals.length) vals⟩) := by
  intro vals
  induction vals with
  | nil =>
    intro _ st
    exact ⟨"", by simp [bindJoin]⟩
  | cons v rest ih =>
    intro h st
    cases rest with
    | nil =>
      refine ⟨"%(" ++ mkName (st.valcnt + 1) ++ ")s", ?_⟩
      show pgValue (coerceSub qp co v) true st = _
      rw [pgValue_scalar _ (h v (by simp)), bindOne_eq]
      simp [List.range']
    | cons w ws =>
      obtain ⟨out2, h2⟩ := ih (fun x hx => h x (by simp [hx])) ⟨st.valcnt + 1,
        st.values ++ [(mkName (st.valcnt + 1), coerceSub qp co v)]⟩
      refine ⟨"%(" ++ mkName (st.valcnt + 1) ++ ")s" ++ "," ++ out2, ?_⟩
      show (let p := pgValue (coerceSub qp co v) true st
            let pr := bindJoin qp co (w :: ws) p.2
            (p.1 ++ "," ++ pr.1, pr.2)) = _
      rw [pgValue_scalar _ (h v (by simp)), bindOne_eq]
      simp only [h2]
      simp [List.length_cons, List.range', List.zipWith, Prod.mk.injEq,
        BState.mk.injEq, List.append_assoc, Nat.add_assoc]
      omega

/-- C9: on the non-whitelisted (document) branch of comparison and membership
predicates the binding stores the string form str(value) of each
parameter-resolved literal (the attribute name is also bound, after the
values for membership, before the value for comparison); on the whitelisted
(standard-column) branch the parameter-resolved value is bound unchanged
(stated for values that are not flattened non-empty lists). -/
theorem pgq_C9_doc_branch_str (ctx : QCtx) (op : CmpOp) (attname : String) (value : PgVal)
    (vals : List PgVal) (tp : String) (st : BState) :
    (is_standard_col ctx attname = .ok false →
      ∃ sql, build_where ctx (.cmp op attname value) tp st =
        .ok (sql, ⟨st.valcnt + 2,
          st.values ++ [(mkName (st.valcnt + 1), .s attname),
            (mkName (st.valcnt + 2), .s (pyStr (sub_param ctx.query_params value)))]⟩)) ∧
    (is_standard_col ctx attname = .ok false →
      ∃ sql, build_where ctx (.xin attname vals) tp st =
        .ok (sql, ⟨st.valcnt + vals.length + 1,
          st.values ++ (List.zipWith
            (fun k v => (mkName k, PgVal.s (pyStr (sub_param ctx.query_params v))))
            (List.range' (st.valcnt + 1) vals.length) vals) ++
            [(mkName (st.valcnt + vals.length + 1), .s attname)]⟩)) ∧
    (is_standard_col ctx attname = .ok true →
      (truthy (sub_param ctx.query_params value) &&
        isLst (sub_param ctx.query_params value)) = false →
      ∃ sql, build_where ctx (.cmp op attname value) tp st =
        .ok (sql, ⟨st.valcnt + 1,
          st.values ++ [(mkName (st.valcnt + 1), sub_param ctx.query_params value)]⟩)) ∧
    (is_standard_col ctx attname = .ok true →
      (∀ v ∈ vals, (truthy (sub_param ctx.query_params v) &&
        isLst (sub_param ctx.query_params v)) = false) →
      ∃ sql, build_where ctx (.xin attname vals) tp st =
        .ok (sql, ⟨st.valcnt + vals.length,
          st.values ++ List.zipWith (fun k v => (mkName k, sub_param ctx.query_params v))
            (List.range' (st.valcnt + 1) vals.length) vals⟩)) := by
  refine ⟨?_, ?_, ?_, ?_⟩
  · intro hstd
    apply Exists.intro
    simp only [build_where, hstd]
    rw [show pgValue (PgVal.s attname) true st = bindOne (PgVal.s attname) st from rfl,
      bindOne_eq]
    rw [show pgValue (PgVal.s (pyStr (sub_param ctx.query_params value))) true
        (⟨st.valcnt + 1, st.values ++ [(mkName (st.valcnt + 1), PgVal.s attname)]⟩ : BState) =
      bindOne (PgVal.s (pyStr (sub_param ctx.query_params value)))
        ⟨st.valcnt + 1, st.values ++ [(mkName (st.valcnt + 1), PgVal.s attname)]⟩ from rfl,
      bindOne_eq]
    simp [List.append_assoc]
    rfl
  · intro hstd
    obtain ⟨j, hj⟩ := bindJoin_spec ctx.query_params true vals
      (fun v _ => coerce_true_scalar ctx.query_params v) st
    apply Exists.intro
    simp only [build_where, hstd, hj]
    rw [show pgValue (PgVal.s attname) true
        (⟨st.valcnt + vals.length,
          st.values ++ List.zipWith (fun k v => (mkName k, coerceSub ctx.query_params true v))
            (List.range' (st.valcnt + 1) vals.length) vals⟩ : BState) =
      bindOne (PgVal.s attname)
        ⟨st.valcnt + vals.length,
          st.values ++ List.zipWith (fun k v => (mkName k, coerceSub ctx.query_params true v))
            (List.range' (st.valcnt + 1) vals.length) vals⟩ from rfl,
      bindOne_eq]
    simp [coerceSub]
    rfl
  · intro hstd hft
    apply Exists.intro
    simp only [build_where, hstd]
    rw [pgValue_scalar _ hft, bindOne_eq]
  · intro hstd hall
    obtain ⟨j, hj⟩ := bindJoin_spec ctx.query_params false vals
      (by simpa [coerceSub] using hall) st
    apply Exists.intro
    simp only [build_where, hstd, hj]
    simp [coerceSub]
    rfl

/-- Witness for C9: the integer literal 5 compared against a non-whitelisted
attribute is bound as the string "5" (the attribute name is bound too). -/
theorem pgq_C9_doc_branch_str_w :
    (build_where ⟨"res", .RESOURCES, "", "", []⟩ (.cmp .eq "custom" (.i 5)) ""
      ⟨0, []⟩).toOption.map (fun r => r.2.values) =
      some [("v1", .s "custom"), ("v2", .s "5")] := by
  obtain ⟨sql, hsql⟩ := (pgq_C9_doc_branch_str ⟨"res", .RESOURCES, "", "", []⟩ .eq "custom"
    (.i 5) [] "" ⟨0, []⟩).1 rfl
  rw [hsql]
  rfl

/-- C8 counterexample: the EXP_AND branch parenthesizes the joined child
fragments once as a group ("(%s)" % " AND ".join(...)); the children are not
individually parenthesized.  AND of two whitelisted equalities compiles to
"(name=%(v1)s AND lcstate=%(v2)s)", not to the claimed
"(name=%(v1)s) AND (lcstate=%(v2)s)" shape. -/
theorem pgq_C8_and_shape_cex :
    build_where ⟨"res", .RESOURCES, "", "", []⟩
      (.qand [.cmp .eq "name" (.s "x"), .cmp .eq "lcstate" (.s "y")]) "" ⟨0, []⟩ =
      .ok ("(name=%(v1)s AND lcstate=%(v2)s)", ⟨2, [("v1", .s "x"), ("v2", .s "y")]⟩) ∧
    "(name=%(v1)s AND lcstate=%(v2)s)" ≠ "(name=%(v1)s) AND (lcstate=%(v2)s)" :=
  ⟨rfl, by decide⟩

/-- C8 (amended): compiling AND(e1, e2) joins the two child fragments with
" AND " and parenthesizes the whole conjunction once (children are emitted
without added parentheses), threading the binder state left to right. -/
theorem pgq_C8_and_shape (ctx : QCtx) (e1 e2 : QExpr) (tp : String) (st : BState)
    (f1 f2 : String) (s1 s2 : BState)
    (h1 : build_where ctx e1 tp st = .ok (f1, s1))
    (h2 : build_where ctx e2 tp s1 = .ok (f2, s2)) :
    build_where ctx (.qand [e1, e2]) tp st =
      .ok ("(" ++ (f1 ++ " AND " ++ f2) ++ ")", s2) := by
  simp only [build_where, build_where_list, h1, h2]

/-- Witness for C8 (amended): the spec's example with whitelisted attributes
and the group-parenthesized output shape, binding v1, v2 in order. -/
theorem pgq_C8_and_shape_w :
    build_where ⟨"res", .RESOURCES, "", "", []⟩
      (.qand [.cmp .eq "name" (.s "1"), .cmp .eq "lcstate" (.s "2")]) "" ⟨0, []⟩ =
      .ok ("(" ++ ("name=%(v1)s" ++ " AND " ++ "lcstate=%(v2)s") ++ ")",
        ⟨2, [("v1", .s "1"), ("v2", .s "2")]⟩) :=
  pgq_C8_and_shape ⟨"res", .RESOURCES, "", "", []⟩ (.cmp .eq "name" (.s "1"))
    (.cmp .eq "lcstate" (.s "2")) "" ⟨0, []⟩ "name=%(v1)s" "lcstate=%(v2)s"
    ⟨1, [("v1", .s "1")]⟩ ⟨2, [("v1", .s "1"), ("v2", .s "2")]⟩ rfl rfl

/-- C5: the ASSOP_ASSOCIATED validation raises the InvalidQuery (BadRequest)
kind exactly when target and target_type are both truthy, or target and
target_filter are both truthy, or the predicate argument is truthy while the
(defaulted) direction has more than one level and the predicate's length
differs from the direction length; and any such validation error is returned
unchanged by the compilation of the associated-with predicate. -/
theorem pgq_C5_assoc_validation (t tt p : PgVal) (dir : String) (tf : Option QExpr)
    (ctx : QCtx) (tp : String) (st : BState) :
    ((∃ m, assoc_validate t tt p dir tf.isSome = .error (.badRequest m)) ↔
      ((truthy t && truthy tt) = true ∨ (truthy t && tf.isSome) = true ∨
       (∃ n, pyLen p = .ok n ∧ truthy p = true ∧
         1 < (if dir = "" then "A" else dir).length ∧
         (if dir = "" then "A" else dir).length ≠ n))) ∧
    (∀ m, assoc_validate t tt p dir tf.isSome = .error (.badRequest m) →
      build_where ctx (.associated t tt p dir tf) tp st = .error (.badRequest m)) := by
  constructor
  · unfold assoc_validate
    by_cases h1 : (truthy t && truthy tt) = true
    · simp [h1]
    · by_cases h2 : (truthy t && tf.isSome) = true
      · simp [h1, h2]
      · by_cases h3 : (truthy p && decide (1 < (if dir = "" then "A" else dir).length)) = true
        · rcases Bool.and_eq_true_iff.mp h3 with ⟨h3a, h3b⟩
          cases hpl : pyLen p with
          | error u =>
            simp [h1, h2, h3, hpl, h3a, of_decide_eq_true h3b]
          | ok n =>
            by_cases h4 : (if dir = "" then "A" else dir).length = n
            · simp [h1, h2, h3, hpl, h4]
            · simp [h1, h2, h3, hpl, h4, h3a, of_decide_eq_true h3b]
        · simp only [Bool.and_eq_true_iff, decide_eq_true_eq, not_and, Bool.not_eq_true] at h3
          by_cases h3a : truthy p = true
          · have h3b : ¬ 1 < (if dir = "" then "A" else dir).length := by
              intro hgt
              have := h3 h3a
              simp [decide_eq_true_eq] at this
              omega
            simp only [h1, h2, if_neg, Bool.false_eq_true, if_false]
            rw [if_neg (by simp [h3a, h3b])]
            simp [h1, h2, h3a, h3b]
          · simp only [h1, h2, if_neg, Bool.false_eq_true, if_false]
            rw [if_neg (by simp [h3a])]
            simp [h1, h2, h3a]
  · intro m hm
    simp only [build_where, hm]

/-- Witness for C5: supplying both target and target_type fails the
compilation with the mutual-exclusion BadRequest. -/
theorem pgq_C5_assoc_validation_w :
    build_where ⟨"res", .RESOURCES, "", "", []⟩
      (.associated (.s "a") (.s "b") .none "S" Option.none) "" ⟨0, []⟩ =
      .error (.badRequest "Cannot provide both target and target_type") :=
  (pgq_C5_assoc_validation (.s "a") (.s "b") .none "S" Option.none
    ⟨"res", .RESOURCES, "", "", []⟩ "" ⟨0, []⟩).2
    "Cannot provide both target and target_type" rfl

/-- C10: in the complex format, when where_join fragments are supplied and
the where predicate is absent (compiling to the empty string), the assembled
WHERE text is "() AND ((<frag1>) AND (<frag2>) ...)": the empty compiled
where group "()" is emitted, not elided. -/
theorem pgq_C10_where_join (q : Query) (bt : String) (b : PGB)
    (hfmt : q.query_args.format = .complex) (hw : q.whereQ = Option.none)
    (hj : q.where_join ≠ []) (hmk : mkBuilder q bt = .ok b) :
    b.whereS = "() AND ((" ++ joinSep ") AND (" q.where_join ++ "))" := by
  have hne : q.where_join.isEmpty = false := by
    cases hq : q.where_join with
    | nil => exact absurd hq hj
    | cons x xs => rfl
  rw [mkBuilder, hfmt] at hmk
  simp only [hw, build_where_opt, hne, Bool.false_eq_true, if_false] at hmk
  have hb := (Except.ok.injEq _ _).mp hmk.symm
  rw [hb]
  rfl

/-- Witness for C10: two raw join fragments with no where predicate produce
the WHERE text "() AND ((base.id=t0.resid) AND (t0.x>5))". -/
theorem pgq_C10_where_join_w :
    mkBuilder ⟨⟨.RESOURCES, "", "", .complex, true, 0, 0⟩, Option.none, [], Option.none, [],
        ["base.id=t0.resid", "t0.x>5"], Option.none, Option.none, []⟩ "res" =
      .ok ⟨"res", "res AS base", ⟨0, []⟩, ["base.id"], ["base"], true,
        "() AND ((base.id=t0.resid) AND (t0.x>5))", "", Option.none, Option.none,
        ⟨.RESOURCES, "", "", .complex, true, 0, 0⟩⟩ ∧
    PGB.whereS ⟨"res", "res AS base", ⟨0, []⟩, ["base.id"], ["base"], true,
        "() AND ((base.id=t0.resid) AND (t0.x>5))", "", Option.none, Option.none,
        ⟨.RESOURCES, "", "", .complex, true, 0, 0⟩⟩ =
      "() AND ((base.id=t0.resid) AND (t0.x>5))" :=
  ⟨rfl,
   pgq_C10_where_join ⟨⟨.RESOURCES, "", "", .complex, true, 0, 0⟩, Option.none, [], Option.none,
      [], ["base.id=t0.resid", "t0.x>5"], Option.none, Option.none, []⟩ "res"
    ⟨"res", "res AS base", ⟨0, []⟩, ["base.id"], ["base"], true,
      "() AND ((base.id=t0.resid) AND (t0.x>5))", "", Option.none, Option.none,
      ⟨.RESOURCES, "", "", .complex, true, 0, 0⟩⟩ rfl rfl (by simp) rfl⟩

theorem assoc_level_A : ∀ (rest : List Char) (ctx : QCtx) (t tt p : PgVal) (dl : Nat)
    (tfc : String → BState → Except PgError (String × BState)) (htf : Bool)
    (lv : Nat) (idcol : String) (st : BState),
    (∀ c ∈ rest, c = 'S' ∨ c = 'O' ∨ c = 'A') → 'A' ∈ rest →
    assoc_level ctx t tt p dl tfc htf lv rest idcol st = .error .notImplemented := by
  intro rest
  induction rest with
  | nil =>
    intro ctx t tt p dl tfc htf lv idcol st hall hA
    simp at hA
  | cons c cs ih =>
    intro ctx t tt p dl tfc htf lv idcol st hall hA
    by_cases hcA : c = 'A'
    · subst hcA
      simp [assoc_level]
    · have hcSO : c = 'S' ∨ c = 'O' := by
        rcases hall c (by simp) with h | h | h
        · exact Or.inl h
        · exact Or.inr h
        · exact absurd h hcA
      have hAcs : 'A' ∈ cs := by
        rcases List.mem_cons.mp hA with h | h
        · exact absurd h.symm hcA
        · exact h
      have hcsne : cs.isEmpty = false := by
        cases cs with
        | nil => simp at hAcs
        | cons x xs => rfl
      have hrec := ih ctx t tt p dl tfc htf (lv + 1)
        ("A" ++ Nat.repr lv ++ "." ++ (if c = 'S' then "o" else "s")) st
        (fun d hd => hall d (by simp [hd])) hAcs
      simp only [assoc_level, hcsne, Bool.false_eq_true, if_false, if_pos hcSO, hrec]

/-- C6 counterexample: compiling an associated-with predicate with direction
"A" fails with NotImplementedError, which is not the InvalidQuery
(BadRequest) error kind the claim asserts. -/
theorem pgq_C6_direction_A_cex :
    build_where ⟨"res", .RESOURCES, "", "", []⟩
      (.associated (.s "T") .none .none "A" Option.none) "" ⟨0, []⟩ =
      .error PgError.notImplemented ∧
    isInvalidQuery (build_where ⟨"res", .RESOURCES, "", "", []⟩
      (.associated (.s "T") .none .none "A" Option.none) "" ⟨0, []⟩) = false :=
  ⟨rfl, rfl⟩

/-- C6 (amended): when the association arguments pass validation and every
direction character is S, O or A with at least one A, the compilation fails
with NotImplementedError — a distinct error kind from the InvalidQuery
(BadRequest) kind used by the other compilation failures — and no SQL is
returned. -/
theorem pgq_C6_direction_A (ctx : QCtx) (t tt p : PgVal) (dirS : String) (tf : Option QExpr)
    (tp : String) (st : BState) (d : String)
    (hok : assoc_validate t tt p dirS tf.isSome = .ok d)
    (hall : ∀ c ∈ d.data, c = 'S' ∨ c = 'O' ∨ c = 'A') (hA : 'A' ∈ d.data) :
    build_where ctx (.associated t tt p dirS tf) tp st = .error PgError.notImplemented := by
  simp only [build_where, hok]
  exact assoc_level_A d.data ctx t tt p d.length _ tf.isSome 0 "id" st hall hA

/-- Witness for C6 (amended): direction "SA" (second level ambiguous) fails
with NotImplementedError. -/
theorem pgq_C6_direction_A_w :
    build_where ⟨"res", .RESOURCES, "", "", []⟩
      (.associated (.s "T") .none .none "SA" Option.none) "" ⟨0, []⟩ =
      .error PgError.notImplemented :=
  pgq_C6_direction_A ⟨"res", .RESOURCES, "", "", []⟩ (.s "T") .none .none "SA" Option.none
    "" ⟨0, []⟩ "SA" rfl (by decide) (by decide)

set_option maxHeartbeats 1000000 in
/-- C4: every descendant-closure compilation (either direction) produces a
recursive step whose WHERE clause carries the cycle guard
"... = ch.chid AND NOT ch.cycle" (with the cycle flag computed as
"ass.id=ANY(ch.path)" over the accumulated path array, visible in the fixed
fragment), followed by a depth-bound condition " AND ch.depth<placeholder"
exactly when max_depth > 0 (max_depth of zero or less means unbounded); when
present, the depth placeholder is the last bound name and maps to max_depth
in the value binding. -/
theorem pgq_C4_descend_shape (ctx : QCtx) (via : Bool) (t tt p : PgVal) (md : Int)
    (tp : String) (st : BState) :
    ∃ u v w1 w2 w3 k s2,
      build_where ctx (.descend via t tt p md) tp st =
        .ok (u ++
          ", ARRAY[ass.id::text] || ch.path, ch.depth + 1, ass.id=ANY(ch.path) FROM ch_res ch, " ++
          v ++ " ass" ++ " WHERE ass." ++ (if via then "s" else "o") ++
          " = ch.chid AND NOT ch.cycle" ++
          (if 0 < md then " AND ch.depth<" ++ ("%(" ++ mkName k ++ ")s") else "") ++
          w1 ++ w2 ++ w3, s2) ∧
      (0 < md → (mkName k, PgVal.i md) ∈ s2.values) := by
  have hdb : ∀ s : BState, pgValue (PgVal.i md) true s =
      ("%(" ++ mkName (s.valcnt + 1) ++ ")s",
       ⟨s.valcnt + 1, s.values ++ [(mkName (s.valcnt + 1), PgVal.i md)]⟩) := fun s => rfl
  by_cases hmd : 0 < md
  · simp only [build_where, hmd, if_true, hdb]
    refine ⟨_, _, _, _, _, _, _, rfl, ?_⟩
    intro _
    simp
  · simp only [build_where, hmd, if_false]
    refine ⟨_, _, _, _, _, 0, _, rfl, ?_⟩
    intro h
    exact h.elim

set_option maxRecDepth 8192 in
set_option maxHeartbeats 4000000 in
/-- Witness for C4: anchor "X", predicate "hasMember", object-direction
descend with max depth 3 binds the depth placeholder v3 to 3 (the depth
condition is present since 3 > 0). -/
theorem pgq_C4_descend_shape_w :
    (0 : Int) < 3 ∧ (mkName 3, PgVal.i 3) ∈
      ([("v1", PgVal.s "hasMember"), ("v2", PgVal.s "X"), ("v3", PgVal.i 3)] :
        List (String × PgVal)) := by
  obtain ⟨u, v, w1, w2, w3, k, s2, heq, hmem⟩ := pgq_C4_descend_shape
    ⟨"res", .RESOURCES, "", "", []⟩ true (.s "X") .none (.s "hasMember") 3 "" ⟨0, []⟩
  have hc : build_where ⟨"res", .RESOURCES, "", "", []⟩
      (.descend true (.s "X") .none (.s "hasMember") 3) "" ⟨0, []⟩ =
      .ok ("id IN (WITH RECURSIVE ch_res(chid, path, depth, cycle) AS (SELECT o, ARRAY[id::text], 1, false FROM res_assoc WHERE s=%(v2)s AND p IN (%(v1)s) UNION ALL SELECT ass.o, ARRAY[ass.id::text] || ch.path, ch.depth + 1, ass.id=ANY(ch.path) FROM ch_res ch, res_assoc ass WHERE ass.s = ch.chid AND NOT ch.cycle AND ch.depth<%(v3)s AND ass.p IN (%(v1)s)) SELECT chid FROM ch_res)",
        ⟨3, [("v1", PgVal.s "hasMember"), ("v2", PgVal.s "X"), ("v3", PgVal.i 3)]⟩) := rfl
  rw [hc] at heq
  injection heq with hp
  have hs2 : s2 = ⟨3, [("v1", PgVal.s "hasMember"), ("v2", PgVal.s "X"), ("v3", PgVal.i 3)]⟩ :=
    (congrArg Prod.snd hp).symm
  have hm := hmem (by norm_num)
  rw [hs2] at hm
  simp only [List.mem_cons, List.not_mem_nil, or_false] at hm
  refine ⟨by norm_num, ?_⟩
  rcases hm with h | h | h
  · exact absurd (congrArg Prod.snd h) (by simp)
  · exact absurd (congrArg Prod.snd h) (by simp)
  · exact List.mem_cons_of_mem _ (List.mem_cons_of_mem _ (List.mem_cons_self _ _))

theorem lit_fixed {s : String} (hs : ∀ x ∈ s.data, x ∈ FIXED) {c : Char}
    (h : c ∈ s.data) : c ∈ FIXED := hs c h

theorem cmpStr_chars (op : CmpOp) : ∀ c ∈ (cmpStr op).data, c ∈ FIXED := by
  cases op <;> decide

theorem ropStr_chars (op : RangeOp) : ∀ c ∈ (ropStr op).data, c ∈ FIXED := by
  cases op <;> decide

theorem bboxStr_chars (op : BboxOp) : ∀ c ∈ (bboxStr op).data, c ∈ FIXED := by
  cases op <;> decide

theorem pgValue_chars : ∀ (v : PgVal) (fl : Bool) (st : BState),
    ∀ c ∈ ((pgValue v fl st).1).data, c ∈ FIXED := by
  apply pgValue.induct
    (motive_2 := fun vs st => ∀ c ∈ ((pgValueJoin vs st).1).data, c ∈ FIXED)
  case _ =>
    intro st x xs ih
    exact ih
  case _ =>
    intro fl st v hne
    have hbv : pgValue v fl st = bindOne v st := by
      cases v with
      | lst vs =>
        cases vs with
        | nil => cases fl <;> rfl
        | cons x xs =>
          cases fl with
          | false => rfl
          | true => exact absurd (hne x xs rfl rfl) (by simp)
      | s w => cases fl <;> rfl
      | i w => cases fl <;> rfl
      | b w => cases fl <;> rfl
      | none => cases fl <;> rfl
    rw [hbv, bindOne_eq]
    intro c hc
    simp only [String.data_append] at hc
    rcases List.mem_append.mp hc with h | h
    · rcases List.mem_append.mp h with h2 | h2
      · exact lit_fixed (by decide) h2
      · exact mkName_chars _ c h2
    · exact lit_fixed (by decide) h
  case _ =>
    intro st
    intro c hc
    simp [pgValueJoin] at hc
  case _ =>
    intro st x ih
    exact ih
  case _ =>
    intro st x y xs r s2 hx r2 s3 hj ih1 ih2
    rw [hx] at ih1
    rw [hj] at ih2
    have key : pgValueJoin (x :: y :: xs) st = (r ++ "," ++ r2, s3) := by
      simp only [pgValueJoin, hx, hj]
    rw [key]
    intro c hc
    simp only [String.data_append] at hc
    rcases List.mem_append.mp hc with h | h
    · rcases List.mem_append.mp h with h2 | h2
      · exact ih1 c h2
      · exact lit_fixed (by decide) h2
    · exact ih2 c h

theorem bindJoin_chars (qp : List (String × PgVal)) (co : Bool) : ∀ (vals : List PgVal)
    (st : BState), ∀ c ∈ ((bindJoin qp co vals st).1).data, c ∈ FIXED := by
  intro vals
  induction vals with
  | nil =>
    intro st c hc
    simp [bindJoin] at hc
  | cons v rest ih =>
    intro st c hc
    cases rest with
    | nil => exact pgValue_chars _ _ _ c hc
    | cons w ws =>
      simp only [bindJoin, String.data_append] at hc
      rcases List.mem_append.mp hc with h | h
      · rcases List.mem_append.mp h with h2 | h2
        · exact pgValue_chars _ _ _ c h2
        · exact lit_fixed (by decide) h2
      · exact ih _ c h

theorem joinSep_chars (sep : String) : ∀ (parts : List String),
    ∀ c ∈ (joinSep sep parts).data, c ∈ sep.data ∨ ∃ p ∈ parts, c ∈ p.data := by
  intro parts
  induction parts with
  | nil =>
    intro c hc
    simp [joinSep] at hc
  | cons x rest ih =>
    intro c hc
    cases rest with
    | nil =>
      exact Or.inr ⟨x, by simp, hc⟩
    | cons y ys =>
      simp only [joinSep, String.data_append] at hc
      rcases List.mem_append.mp hc with h | h
      · rcases List.mem_append.mp h with h2 | h2
        · exact Or.inr ⟨x, by simp, h2⟩
        · exact Or.inl h2
      · rcases ih c h with h2 | ⟨p, hp, hcp⟩
        · exact Or.inl h2
        · exact Or.inr ⟨p, by simp [hp], hcp⟩

theorem app_sub {A : List Char} {s1 s2 : String} (h1 : ∀ c ∈ s1.data, c ∈ A)
    (h2 : ∀ c ∈ s2.data, c ∈ A) : ∀ c ∈ (s1 ++ s2).data, c ∈ A := by
  intro c hc
  rw [String.data_append] at hc
  rcases List.mem_append.mp hc with h | h
  · exact h1 c h
  · exact h2 c h

theorem wF4 {att : List Char} {tp bt s : String} (h : ∀ c ∈ s.data, c ∈ FIXED) :
    ∀ c ∈ s.data, c ∈ FIXED ++ att ++ tp.data ++ bt.data := fun c hc =>
  List.mem_append_left _ (List.mem_append_left _ (List.mem_append_left _ (h c hc)))

theorem wA4 {att : List Char} {tp bt s : String} (h : ∀ c ∈ s.data, c ∈ att) :
    ∀ c ∈ s.data, c ∈ FIXED ++ att ++ tp.data ++ bt.data := fun c hc =>
  List.mem_append_left _ (List.mem_append_left _ (List.mem_append_right _ (h c hc)))

theorem wT4 {att : List Char} {tp bt s : String} (h : ∀ c ∈ s.data, c ∈ tp.data) :
    ∀ c ∈ s.data, c ∈ FIXED ++ att ++ tp.data ++ bt.data := fun c hc =>
  List.mem_append_left _ (List.mem_append_right _ (h c hc))

theorem wB4 {att : List Char} {tp bt s : String} (h : ∀ c ∈ s.data, c ∈ bt.data) :
    ∀ c ∈ s.data, c ∈ FIXED ++ att ++ tp.data ++ bt.data := fun c hc =>
  List.mem_append_right _ (h c hc)

theorem wSub4 {att1 att2 : List Char} {tp bt s : String}
    (hsub : ∀ c ∈ att1, c ∈ att2)
    (h : ∀ c ∈ s.data, c ∈ FIXED ++ att1 ++ tp.data ++ bt.data) :
    ∀ c ∈ s.data, c ∈ FIXED ++ att2 ++ tp.data ++ bt.data := by
  intro c hc
  have := h c hc
  simp only [List.mem_append] at this ⊢
  rcases this with ((h1 | h1) | h1) | h1
  · exact Or.inl (Or.inl (Or.inl h1))
  · exact Or.inl (Or.inl (Or.inr (hsub c h1)))
  · exact Or.inl (Or.inr h1)
  · exact Or.inr h1

theorem wTfix {att : List Char} {tpi tpo bt s : String}
    (hfix : ∀ x ∈ tpi.data, x ∈ FIXED)
    (h : ∀ c ∈ s.data, c ∈ FIXED ++ att ++ tpi.data ++ bt.data) :
    ∀ c ∈ s.data, c ∈ FIXED ++ att ++ tpo.data ++ bt.data := by
  intro c hc
  have := h c hc
  simp only [List.mem_append] at this ⊢
  rcases this with ((h1 | h1) | h1) | h1
  · exact Or.inl (Or.inl (Or.inl h1))
  · exact Or.inl (Or.inl (Or.inr h1))
  · exact Or.inl (Or.inl (Or.inl (hfix c h1)))
  · exact Or.inr h1

theorem attChars_mem_L : ∀ (es : List QExpr) (e : QExpr), e ∈ es →
    ∀ c ∈ attChars e, c ∈ attCharsL es := by
  intro es
  induction es with
  | nil => intro e he; simp at he
  | cons x xs ih =>
    intro e he c hc
    rcases List.mem_cons.mp he with h | h
    · subst h
      exact List.mem_append_left _ hc
    · exact List.mem_append_right _ (ih e h c hc)

theorem geomFreeL_mem : ∀ (es : List QExpr) (e : QExpr), e ∈ es →
    geomFreeL es = true → geomFree e = true := by
  intro es
  induction es with
  | nil => intro e he; simp at he
  | cons x xs ih =>
    intro e he hg
    have hg2 := Bool.and_eq_true_iff.mp hg
    rcases List.mem_cons.mp he with h | h
    · subst h; exact hg2.1
    · exact ih e h hg2.2

theorem bw_list_chars (ctx : QCtx) (tp sep : String)
    (hsep : ∀ c ∈ sep.data, c ∈ FIXED) : ∀ (es : List QExpr),
    (∀ e ∈ es, ∀ (st : BState) (out : String) (st2 : BState),
      build_where ctx e tp st = .ok (out, st2) →
      ∀ c ∈ out.data, c ∈ FIXED ++ attChars e ++ tp.data ++ ctx.basetable.data) →
    ∀ (st : BState) (out : String) (st2 : BState),
      build_where_list ctx es tp sep st = .ok (out, st2) →
      ∀ c ∈ out.data, c ∈ FIXED ++ attCharsL es ++ tp.data ++ ctx.basetable.data := by
  intro es
  induction es with
  | nil =>
    intro _ st out st2 heq
    simp only [build_where_list] at heq
    injection heq with hp
    injection hp with h1 h2
    rw [← h1]
    intro c hc
    simp at hc
  | cons e rest ih =>
    intro hels st out st2 heq
    cases rest with
    | nil =>
      have := hels e (by simp) st out st2 heq
      exact wSub4 (attChars_mem_L [e] e (by simp)) this
    | cons f fs =>
      simp only [build_where_list] at heq
      cases hx : build_where ctx e tp st with
      | error er => rw [hx] at heq; exact absurd heq (by simp)
      | ok pr =>
        obtain ⟨x1, s1⟩ := pr
        rw [hx] at heq
        simp only at heq
        cases hr : build_where_list ctx (f :: fs) tp sep s1 with
        | error er => rw [hr] at heq; simp at heq
        | ok pr2 =>
          obtain ⟨x2, s2⟩ := pr2
          rw [hr] at heq
          simp only at heq
          injection heq with hp
          injection hp with h1 h2
          rw [← h1]
          have hhd := hels e (by simp) st x1 s1 hx
          have htl := ih (fun x hx2 => hels x (by simp [hx2])) s1 x2 s2 hr
          refine app_sub (app_sub ?_ (wF4 hsep)) ?_
          · exact wSub4 (attChars_mem_L (e :: f :: fs) e (by simp)) hhd
          · exact wSub4 (fun c hc => List.mem_append_right _ hc) htl

theorem wF3 {att : List Char} {bt s : String} (h : ∀ c ∈ s.data, c ∈ FIXED) :
    ∀ c ∈ s.data, c ∈ FIXED ++ att ++ bt.data := fun c hc =>
  List.mem_append_left _ (List.mem_append_left _ (h c hc))

theorem wA3 {att : List Char} {bt s : String} (h : ∀ c ∈ s.data, c ∈ att) :
    ∀ c ∈ s.data, c ∈ FIXED ++ att ++ bt.data := fun c hc =>
  List.mem_append_left _ (List.mem_append_right _ (h c hc))

theorem wB3 {att : List Char} {bt s : String} (h : ∀ c ∈ s.data, c ∈ bt.data) :
    ∀ c ∈ s.data, c ∈ FIXED ++ att ++ bt.data := fun c hc =>
  List.mem_append_right _ (h c hc)

theorem strData_sub {s : String} : ∀ c ∈ s.data, c ∈ s.data := fun _ hc => hc

theorem assoc_pred_clause_chars (qp : List (String × PgVal)) (ltab : String)
    (lvpred : PgVal) (s1 : BState) (hltab : ∀ c ∈ ltab.data, c ∈ FIXED) :
    ∀ c ∈ (assoc_pred_clause qp ltab lvpred s1).1.data, c ∈ FIXED := by
  by_cases h1 : (truthy lvpred && isLst lvpred) = true
  · simp only [assoc_pred_clause, h1, if_true]
    refine app_sub (app_sub (app_sub (app_sub ?_ hltab) ?_) (bindJoin_chars _ _ _ _)) ?_
    all_goals decide
  · by_cases h2 : truthy lvpred = true
    · have h1' : isLst lvpred = false := by
        cases hL : isLst lvpred
        · rfl
        · exact absurd (by simp [h2, hL]) h1
      simp only [assoc_pred_clause, h2, h1', Bool.true_and, Bool.false_eq_true, if_false,
        if_true]
      refine app_sub (app_sub (app_sub ?_ hltab) ?_) (pgValue_chars _ _ _)
      all_goals decide
    · have h2' : truthy lvpred = false := by
        cases hL : truthy lvpred
        · rfl
        · exact absurd hL h2
      simp only [assoc_pred_clause, h2', Bool.false_and, Bool.false_eq_true, if_false]
      intro c hc
      simp at hc

theorem assoc_leaf_chars (ctx : QCtx) (t tt : PgVal) (att : List Char)
    (tfc : String → BState → Except PgError (String × BState))
    (htfc : ∀ (st1 : BState) (out2 : String) (st2 : BState),
      tfc "ART." st1 = .ok (out2, st2) → ∀ c ∈ out2.data,
        c ∈ FIXED ++ att ++ ctx.basetable.data)
    (htf : Bool) (ltab aatt : String) (st : BState)
    (hltab : ∀ c ∈ ltab.data, c ∈ FIXED) (haatt : ∀ c ∈ aatt.data, c ∈ FIXED) :
    ∀ (out : String) (st2 : BState),
      assoc_leaf ctx t tt tfc htf ltab aatt st = .ok (out, st2) →
      ∀ c ∈ out.data, c ∈ FIXED ++ att ++ ctx.basetable.data := by
  intro out st2 heq
  by_cases hT : truthy t = true
  · by_cases hTL : isLst t = true
    · simp only [assoc_leaf, hT, hTL, Bool.and_self, if_true] at heq
      injection heq with hp
      injection hp with h1 h2
      rw [← h1]
      repeat' refine app_sub ?_ ?_
      all_goals first
        | exact wF3 hltab
        | exact wF3 haatt
        | exact wF3 (bindJoin_chars _ _ _ _)
        | exact wF3 (by decide)
    · simp only [Bool.not_eq_true] at hTL
      simp only [assoc_leaf, hT, hTL, Bool.true_and, Bool.false_eq_true, if_false,
        if_true] at heq
      injection heq with hp
      injection hp with h1 h2
      rw [← h1]
      repeat' refine app_sub ?_ ?_
      all_goals first
        | exact wF3 hltab
        | exact wF3 haatt
        | exact wF3 (pgValue_chars _ _ _)
        | exact wF3 (by decide)
  · simp only [Bool.not_eq_true] at hT
    by_cases hTT : truthy tt = true
    · by_cases hTTL : isLst tt = true
      · simp only [assoc_leaf, hT, hTT, hTTL, Bool.false_and, Bool.and_self,
          Bool.false_eq_true, if_false, if_true] at heq
        injection heq with hp
        injection hp with h1 h2
        rw [← h1]
        repeat' refine app_sub ?_ ?_
        all_goals first
          | exact wF3 hltab
          | exact wF3 haatt
          | exact wF3 (bindJoin_chars _ _ _ _)
          | exact wF3 (by decide)
      · simp only [Bool.not_eq_true] at hTTL
        simp only [assoc_leaf, hT, hTT, hTTL, Bool.false_and, Bool.true_and, Bool.and_false,
          Bool.false_eq_true, if_false, if_true] at heq
        cases hhtf : htf with
        | true =>
          rw [hhtf] at heq
          simp only [if_true] at heq
          cases htfr : tfc "ART." (pgValue (sub_param ctx.query_params tt) true st).2 with
          | error er => rw [htfr] at heq; exact absurd heq (by simp)
          | ok pr =>
            obtain ⟨tfs, s3⟩ := pr
            rw [htfr] at heq
            simp only at heq
            injection heq with hp
            injection hp with h1 h2
            rw [← h1]
            repeat' refine app_sub ?_ ?_
            all_goals first
              | exact wF3 hltab
              | exact wF3 haatt
              | exact wF3 (pgValue_chars _ _ _)
              | exact wB3 strData_sub
              | exact htfc _ _ _ htfr
              | exact wF3 (by decide)
        | false =>
          rw [hhtf] at heq
          simp only [Bool.false_eq_true, if_false] at heq
          injection heq with hp
          injection hp with h1 h2
          rw [← h1]
          repeat' refine app_sub ?_ ?_
          all_goals first
            | exact wF3 hltab
            | exact wF3 haatt
            | exact wF3 (pgValue_chars _ _ _)
            | exact wF3 (by decide)
    · simp only [Bool.not_eq_true] at hTT
      cases hhtf : htf with
      | true =>
        simp only [assoc_leaf, hT, hTT, hhtf, Bool.false_and, Bool.false_eq_true, if_false,
          if_true] at heq
        cases htfr : tfc "ART." st with
        | error er => rw [htfr] at heq; exact absurd heq (by simp)
        | ok pr =>
          obtain ⟨tfs, s3⟩ := pr
          rw [htfr] at heq
          simp only at heq
          injection heq with hp
          injection hp with h1 h2
          rw [← h1]
          repeat' refine app_sub ?_ ?_
          all_goals first
            | exact wF3 hltab
            | exact wF3 haatt
            | exact wB3 strData_sub
            | exact htfc _ _ _ htfr
            | exact wF3 (by decide)
      | false =>
        simp only [assoc_leaf, hT, hTT, hhtf, Bool.false_and, Bool.false_eq_true,
          if_false] at heq
        exact absurd heq (by simp)

theorem assoc_level_chars (ctx : QCtx) (t tt pred : PgVal) (dirlen : Nat)
    (att : List Char)
    (tfc : String → BState → Except PgError (String × BState))
    (htfc : ∀ (st1 : BState) (out2 : String) (st2 : BState),
      tfc "ART." st1 = .ok (out2, st2) → ∀ c ∈ out2.data,
        c ∈ FIXED ++ att ++ ctx.basetable.data)
    (htf : Bool) :
    ∀ (rest : List Char) (lvnum : Nat) (idcol : String) (st : BState)
      (out : String) (st2 : BState),
      (∀ c ∈ idcol.data, c ∈ FIXED) →
      assoc_level ctx t tt pred dirlen tfc htf lvnum rest idcol st = .ok (out, st2) →
      ∀ c ∈ out.data, c ∈ FIXED ++ att ++ ctx.basetable.data := by
  intro rest
  induction rest with
  | nil =>
    intro lvnum idcol st out st2 hid heq
    simp only [assoc_level] at heq
    exact absurd heq (by simp)
  | cons lvdir restT ih =>
    intro lvnum idcol st out st2 hid heq
    have hltab : ∀ c ∈ ("A" ++ Nat.repr lvnum).data, c ∈ FIXED := by
      intro c hc
      rw [String.data_append] at hc
      rcases List.mem_append.mp hc with h | h
      · have hA : ∀ x ∈ ("A" : String).data, x ∈ FIXED := by decide
        exact hA c h
      · have hd := natRepr_digits lvnum c h
        have h09 : ∀ x ∈ ("0123456789" : String).data, x ∈ FIXED := by decide
        exact h09 c hd
    have hrep : ∀ c ∈ (Nat.repr lvnum).data, c ∈ FIXED := by
      intro c hc
      have h09 : ∀ x ∈ ("0123456789" : String).data, x ∈ FIXED := by decide
      exact h09 c (natRepr_digits lvnum c hc)
    have hidatt : ∀ c ∈ (if lvdir = 'S' then ("s" : String) else "o").data, c ∈ FIXED := by
      split <;> decide
    have haatt : ∀ c ∈ (if lvdir = 'S' then ("o" : String) else "s").data, c ∈ FIXED := by
      split <;> decide
    simp only [assoc_level] at heq
    by_cases hd : lvdir = 'S' ∨ lvdir = 'O'
    · rw [if_pos hd] at heq
      by_cases hre : restT.isEmpty = true
      · rw [if_pos hre] at heq
        cases hleaf : assoc_leaf ctx t tt tfc htf ("A" ++ Nat.repr lvnum)
            (if lvdir = 'S' then "o" else "s") st with
        | error e => rw [hleaf] at heq; exact absurd heq (by simp)
        | ok pr =>
          obtain ⟨ix, s1⟩ := pr
          rw [hleaf] at heq
          simp only at heq
          injection heq with hp
          injection hp with h1 h2
          rw [← h1]
          repeat' refine app_sub ?_ ?_
          all_goals first
            | exact wF3 hid
            | exact wF3 hltab
            | exact wF3 hrep
            | exact wF3 hidatt
            | exact wF3 haatt
            | exact wB3 strData_sub
            | exact assoc_leaf_chars ctx t tt att tfc htfc htf _ _ st hltab haatt ix s1 hleaf
            | exact wF3 (assoc_pred_clause_chars _ _ _ _ hltab)
            | exact wF3 (by decide)
      · rw [if_neg hre] at heq
        have hid2 : ∀ c ∈ (("A" ++ Nat.repr lvnum) ++ "." ++
            (if lvdir = 'S' then ("o" : String) else "s")).data, c ∈ FIXED := by
          refine app_sub (app_sub hltab ?_) haatt
          decide
        cases hrec : assoc_level ctx t tt pred dirlen tfc htf (lvnum + 1) restT
            (("A" ++ Nat.repr lvnum) ++ "." ++ (if lvdir = 'S' then "o" else "s")) st with
        | error e => rw [hrec] at heq; exact absurd heq (by simp)
        | ok pr =>
          obtain ⟨ix, s1⟩ := pr
          rw [hrec] at heq
          simp only at heq
          injection heq with hp
          injection hp with h1 h2
          rw [← h1]
          repeat' refine app_sub ?_ ?_
          all_goals first
            | exact wF3 hid
            | exact wF3 hltab
            | exact wF3 hrep
            | exact wF3 hidatt
            | exact wF3 haatt
            | exact wB3 strData_sub
            | exact ih (lvnum + 1) _ st ix s1 hid2 hrec
            | exact wF3 (assoc_pred_clause_chars _ _ _ _ hltab)
            | exact wF3 (by decide)
    · rw [if_neg hd] at heq
      by_cases hA : lvdir = 'A'
      · rw [if_pos hA] at heq
        exact absurd heq (by simp)
      · rw [if_neg hA] at heq
        exact absurd heq (by simp)

theorem ite_chars {P : Prop} [Decidable P] {T : List Char} {a b : String}
    (ha : ∀ c ∈ a.data, c ∈ T) (hb : ∀ c ∈ b.data, c ∈ T) :
    ∀ c ∈ (if P then a else b).data, c ∈ T := by
  split
  · exact ha
  · exact hb

theorem cond_chars {b : Bool} {T : List Char} {x y : String}
    (hx : ∀ c ∈ x.data, c ∈ T) (hy : ∀ c ∈ y.data, c ∈ T) :
    ∀ c ∈ (bif b then x else y).data, c ∈ T := by
  cases b
  · exact hy
  · exact hx

theorem w3to4 {att : List Char} {tp bt s : String}
    (h : ∀ c ∈ s.data, c ∈ FIXED ++ att ++ bt.data) :
    ∀ c ∈ s.data, c ∈ FIXED ++ att ++ tp.data ++ bt.data := by
  intro c hc
  have := h c hc
  simp only [List.mem_append] at this ⊢
  rcases this with (h1 | h1) | h1
  · exact Or.inl (Or.inl (Or.inl h1))
  · exact Or.inl (Or.inl (Or.inr h1))
  · exact Or.inr h1

theorem w4to3 {att : List Char} {tpi bt s : String}
    (hfix : ∀ x ∈ tpi.data, x ∈ FIXED)
    (h : ∀ c ∈ s.data, c ∈ FIXED ++ att ++ tpi.data ++ bt.data) :
    ∀ c ∈ s.data, c ∈ FIXED ++ att ++ bt.data := by
  intro c hc
  have := h c hc
  simp only [List.mem_append] at this ⊢
  rcases this with ((h1 | h1) | h1) | h1
  · exact Or.inl (Or.inl h1)
  · exact Or.inl (Or.inr h1)
  · exact Or.inl (Or.inl (hfix c h1))
  · exact Or.inr h1

theorem natRepr_fixed (k : Nat) : ∀ c ∈ (Nat.repr k).data, c ∈ FIXED := by
  intro c hc
  have h09 : ∀ x ∈ ("0123456789" : String).data, x ∈ FIXED := by decide
  exact h09 c (natRepr_digits k c hc)

set_option maxHeartbeats 1000000 in
theorem bw_chars : ∀ (n : Nat) (e : QExpr), sizeOf e ≤ n →
    ∀ (ctx : QCtx) (tp : String) (st : BState) (out : String) (st2 : BState),
    geomFree e = true →
    build_where ctx e tp st = .ok (out, st2) →
    ∀ c ∈ out.data, c ∈ FIXED ++ attChars e ++ tp.data ++ ctx.basetable.data := by
  intro n
  induction n with
  | zero =>
    intro e he
    exact absurd he (by cases e <;> simp)
  | succ n ih =>
    intro e he ctx tp st out st2 hg heq
    cases e with
    | cmp op attname value =>
      simp only [build_where] at heq
      cases hsc : is_standard_col ctx attname with
      | error er => rw [hsc] at heq; exact absurd heq (by simp)
      | ok b =>
        cases b with
        | true =>
          rw [hsc] at heq
          simp only at heq
          injection heq with hp
          injection hp with h1 h2
          rw [← h1]
          simp only [attChars]
          repeat' first
            | refine app_sub ?_ ?_
            | refine ite_chars ?_ ?_
          all_goals first
            | exact wF4 (pgValue_chars _ _ _)
            | exact wT4 strData_sub
            | exact wA4 strData_sub
            | exact wF4 (cmpStr_chars _)
            | exact wF4 (natRepr_fixed _)
            | exact wF4 (by decide)
        | false =>
          rw [hsc] at heq
          simp only at heq
          injection heq with hp
          injection hp with h1 h2
          rw [← h1]
          simp only [attChars]
          repeat' first
            | refine app_sub ?_ ?_
            | refine ite_chars ?_ ?_
          all_goals first
            | exact wF4 (pgValue_chars _ _ _)
            | exact wT4 strData_sub
            | exact wA4 strData_sub
            | exact wF4 (cmpStr_chars _)
            | exact wF4 (natRepr_fixed _)
            | exact wF4 (by decide)
    | xin attname values =>
      simp only [build_where] at heq
      cases hsc : is_standard_col ctx attname with
      | error er => rw [hsc] at heq; exact absurd heq (by simp)
      | ok b =>
        cases b with
        | true =>
          rw [hsc] at heq
          simp only at heq
          injection heq with hp
          injection hp with h1 h2
          rw [← h1]
          simp only [attChars]
          repeat' refine app_sub ?_ ?_
          all_goals first
            | exact wF4 (bindJoin_chars _ _ _ _)
            | exact wT4 strData_sub
            | exact wA4 strData_sub
            | exact wF4 (natRepr_fixed _)
            | exact wF4 (by decide)
        | false =>
          rw [hsc] at heq
          simp only at heq
          injection heq with hp
          injection hp with h1 h2
          rw [← h1]
          simp only [attChars]
          repeat' refine app_sub ?_ ?_
          all_goals first
            | exact wF4 (bindJoin_chars _ _ _ _)
            | exact wF4 (pgValue_chars _ _ _)
            | exact wT4 strData_sub
            | exact wA4 strData_sub
            | exact wF4 (natRepr_fixed _)
            | exact wF4 (by decide)
    | between attname v1 v2 =>
      simp only [build_where] at heq
      cases hsc : is_standard_col ctx attname with
      | error er => rw [hsc] at heq; exact absurd heq (by simp)
      | ok b =>
        cases b with
        | true =>
          rw [hsc] at heq
          simp only at heq
          injection heq with hp
          injection hp with h1 h2
          rw [← h1]
          simp only [attChars]
          repeat' refine app_sub ?_ ?_
          all_goals first
            | exact wF4 (pgValue_chars _ _ _)
            | exact wT4 strData_sub
            | exact wA4 strData_sub
            | exact wF4 (natRepr_fixed _)
            | exact wF4 (by decide)
        | false =>
          rw [hsc] at heq
          simp only at heq
          injection heq with hp
          injection hp with h1 h2
          rw [← h1]
          simp only [attChars]
          repeat' refine app_sub ?_ ?_
          all_goals first
            | exact wF4 (pgValue_chars _ _ _)
            | exact wT4 strData_sub
            | exact wA4 strData_sub
            | exact wF4 (natRepr_fixed _)
            | exact wF4 (by decide)
    | attlike il attname value =>
      simp only [build_where] at heq
      injection heq with hp
      injection hp with h1 h2
      rw [← h1]
      simp only [attChars]
      repeat' first
        | refine app_sub ?_ ?_
        | refine cond_chars ?_ ?_
      all_goals first
        | exact wF4 (pgValue_chars _ _ _)
        | exact wT4 strData_sub
        | exact wF4 (natRepr_fixed _)
        | exact wF4 (by decide)
    | allmatch value contains =>
      simp only [build_where] at heq
      cases contains with
      | true =>
        rw [if_pos rfl] at heq
        injection heq with hp
        injection hp with h1 h2
        rw [← h1]
        simp only [attChars]
        repeat' refine app_sub ?_ ?_
        all_goals first
          | exact wF4 (pgValue_chars _ _ _)
          | exact wT4 strData_sub
          | exact wF4 (natRepr_fixed _)
          | exact wF4 (by decide)
      | false =>
        rw [if_neg (by simp)] at heq
        injection heq with hp
        injection hp with h1 h2
        rw [← h1]
        simp only [attChars]
        repeat' refine app_sub ?_ ?_
        all_goals first
          | exact wF4 (pgValue_chars _ _ _)
          | exact wT4 strData_sub
          | exact wF4 (natRepr_fixed _)
          | exact wF4 (by decide)
    | keyword value =>
      simp only [build_where] at heq
      injection heq with hp
      injection hp with h1 h2
      rw [← h1]
      simp only [attChars]
      repeat' refine app_sub ?_ ?_
      all_goals first
        | exact wF4 (pgValue_chars _ _ _)
        | exact wT4 strData_sub
        | exact wF4 (natRepr_fixed _)
        | exact wF4 (by decide)
    | altid ns aid =>
      simp only [build_where] at heq
      cases ha : truthy aid <;> cases hn : truthy ns <;>
        simp only [ha, hn, Bool.not_true, Bool.not_false, Bool.true_and, Bool.false_and,
          Bool.and_true, Bool.and_false, Bool.false_eq_true, Bool.true_eq_false,
          eq_self_iff_true, if_true, if_false] at heq <;>
        (injection heq with hp
         injection hp with h1 h2
         rw [← h1]
         simp only [attChars]
         try simp only [apply_ite Prod.fst]
         repeat' first
           | refine app_sub ?_ ?_
           | refine ite_chars ?_ ?_
         all_goals first
           | exact wF4 (pgValue_chars _ _ _)
           | exact wT4 strData_sub
           | exact wF4 (natRepr_fixed _)
           | exact wF4 (by decide))
    | rop op colname x1 y1 =>
      simp only [build_where] at heq
      injection heq with hp
      injection hp with h1 h2
      rw [← h1]
      simp only [attChars]
      repeat' refine app_sub ?_ ?_
      all_goals first
        | exact wF4 (pgValue_chars _ _ _)
        | exact wT4 strData_sub
        | exact wA4 strData_sub
        | exact wF4 (ropStr_chars _)
        | exact wF4 (natRepr_fixed _)
        | exact wF4 (by decide)
    | gdistance colname px py dist cop =>
      simp only [build_where] at heq
      injection heq with hp
      injection hp with h1 h2
      rw [← h1]
      simp only [attChars]
      repeat' refine app_sub ?_ ?_
      all_goals first
        | exact wF4 (pgValue_chars _ _ _)
        | exact wT4 strData_sub
        | exact wA4 strData_sub
        | exact wF4 (cmpStr_chars _)
        | exact wF4 (natRepr_fixed _)
        | exact wF4 (by decide)
    | ggeom op colname wkt buf =>
      simp only [geomFree] at hg
      exact absurd hg (by simp)
    | gbbox op colname x1 y1 x2 y2 =>
      simp only [build_where] at heq
      injection heq with hp
      injection hp with h1 h2
      rw [← h1]
      simp only [attChars]
      repeat' refine app_sub ?_ ?_
      all_goals first
        | exact wF4 (pgValue_chars _ _ _)
        | exact wT4 strData_sub
        | exact wA4 strData_sub
        | exact wF4 (bboxStr_chars _)
        | exact wF4 (natRepr_fixed _)
        | exact wF4 (by decide)
    | qand es =>
      simp only [build_where] at heq
      cases hbl : build_where_list ctx es tp " AND " st with
      | error er => rw [hbl] at heq; exact absurd heq (by simp)
      | ok pr =>
        obtain ⟨j, s1⟩ := pr
        rw [hbl] at heq
        simp only at heq
        injection heq with hp
        injection hp with h1 h2
        rw [← h1]
        simp only [attChars]
        have hels : ∀ e2 ∈ es, ∀ (st3 : BState) (o3 : String) (st4 : BState),
            build_where ctx e2 tp st3 = .ok (o3, st4) →
            ∀ c ∈ o3.data, c ∈ FIXED ++ attChars e2 ++ tp.data ++ ctx.basetable.data := by
          intro e2 he2 st3 o3 st4 heq2
          have hlt := List.sizeOf_lt_of_mem he2
          have hsz : sizeOf e2 ≤ n := by
            simp only [QExpr.qand.sizeOf_spec] at he
            omega
          have hg2 : geomFree e2 = true := by
            simp only [geomFree] at hg
            exact geomFreeL_mem es e2 he2 hg
          exact ih e2 hsz ctx tp st3 o3 st4 hg2 heq2
        have hj := bw_list_chars ctx tp " AND " (by decide) es hels st j s1 hbl
        exact app_sub (app_sub (wF4 (by decide)) hj) (wF4 (by decide))
    | qor es =>
      simp only [build_where] at heq
      cases hbl : build_where_list ctx es tp " OR " st with
      | error er => rw [hbl] at heq; exact absurd heq (by simp)
      | ok pr =>
        obtain ⟨j, s1⟩ := pr
        rw [hbl] at heq
        simp only at heq
        injection heq with hp
        injection hp with h1 h2
        rw [← h1]
        simp only [attChars]
        have hels : ∀ e2 ∈ es, ∀ (st3 : BState) (o3 : String) (st4 : BState),
            build_where ctx e2 tp st3 = .ok (o3, st4) →
            ∀ c ∈ o3.data, c ∈ FIXED ++ attChars e2 ++ tp.data ++ ctx.basetable.data := by
          intro e2 he2 st3 o3 st4 heq2
          have hlt := List.sizeOf_lt_of_mem he2
          have hsz : sizeOf e2 ≤ n := by
            simp only [QExpr.qor.sizeOf_spec] at he
            omega
          have hg2 : geomFree e2 = true := by
            simp only [geomFree] at hg
            exact geomFreeL_mem es e2 he2 hg
          exact ih e2 hsz ctx tp st3 o3 st4 hg2 heq2
        have hj := bw_list_chars ctx tp " OR " (by decide) es hels st j s1 hbl
        exact app_sub (app_sub (wF4 (by decide)) hj) (wF4 (by decide))
    | qnot ex =>
      simp only [build_where] at heq
      cases hx : build_where ctx ex tp st with
      | error er => rw [hx] at heq; exact absurd heq (by simp)
      | ok pr =>
        obtain ⟨f, s1⟩ := pr
        rw [hx] at heq
        simp only at heq
        injection heq with hp
        injection hp with h1 h2
        rw [← h1]
        simp only [attChars]
        have hsz : sizeOf ex ≤ n := by
          simp only [QExpr.qnot.sizeOf_spec] at he
          omega
        have hg2 : geomFree ex = true := by
          simp only [geomFree] at hg
          exact hg
        have hf := ih ex hsz ctx tp st f s1 hg2 hx
        exact app_sub (app_sub (wF4 (by decide)) hf) (wF4 (by decide))
    | associated t tt pred direction tf =>
      simp only [build_where] at heq
      cases hv : assoc_validate t tt pred direction tf.isSome with
      | error er => rw [hv] at heq; exact absurd heq (by simp)
      | ok dir =>
        rw [hv] at heq
        simp only at heq
        simp only [attChars]
        refine w3to4 (assoc_level_chars ctx t tt pred dir.length (attCharsO tf) _ ?_
          tf.isSome dir.data 0 "id" st out st2 (by decide) heq)
        intro st1 out2 st2' h2
        cases tf with
        | none =>
          simp only [build_where_opt] at h2
          injection h2 with hp
          injection hp with h1' h2'
          rw [← h1']
          exact fun c hc => nomatch hc
        | some ex =>
          simp only [build_where_opt] at h2
          have hsz : sizeOf ex ≤ n := by
            simp only [QExpr.associated.sizeOf_spec, Option.some.sizeOf_spec] at he
            omega
          have hg2 : geomFree ex = true := by
            simp only [geomFree, geomFreeO] at hg
            exact hg
          have := ih ex hsz ctx "ART." st1 out2 st2' hg2 h2
          simp only [attCharsO]
          exact w4to3 (by decide) this
    | descend via_obj t tt pred md =>
      simp only [build_where] at heq
      injection heq with hp
      injection hp with h1 h2
      rw [← h1]
      simp only [attChars]
      simp only [apply_ite Prod.fst]
      repeat' first
        | refine app_sub ?_ ?_
        | refine ite_chars ?_ ?_
      all_goals first
        | exact wF4 (pgValue_chars _ _ _)
        | exact wF4 (bindJoin_chars _ _ _ _)
        | exact wT4 strData_sub
        | exact wB4 strData_sub
        | exact wF4 (natRepr_fixed _)
        | exact wF4 (by decide)
        | exact fun c hc => nomatch hc

theorem wQ1 {A B : List Char} {s : String} (h : ∀ c ∈ s.data, c ∈ A) :
    ∀ c ∈ s.data, c ∈ A ++ B := fun c hc => List.mem_append_left _ (h c hc)

theorem wQ2 {A B : List Char} {s : String} (h : ∀ c ∈ s.data, c ∈ B) :
    ∀ c ∈ s.data, c ∈ A ++ B := fun c hc => List.mem_append_right _ (h c hc)

theorem ite_chars_h {P : Prop} [Decidable P] {T : List Char} {a b : String}
    (ha : P → ∀ c ∈ a.data, c ∈ T) (hb : ∀ c ∈ b.data, c ∈ T) :
    ∀ c ∈ (if P then a else b).data, c ∈ T := by
  by_cases h : P
  · rw [if_pos h]; exact ha h
  · rw [if_neg h]; exact hb

theorem intStr_fixed (i : Int) (h : 0 < i) : ∀ c ∈ (toString i).data, c ∈ FIXED := by
  cases i with
  | ofNat n => exact natRepr_fixed n
  | negSucc n => exact absurd h (lt_asymm (Int.negSucc_lt_zero n))

theorem strsChars_cons (t : String) (ts : List String) :
    strsChars (t :: ts) = t.data ++ strsChars ts := rfl

theorem strsChars_mem : ∀ (l : List String) (p : String), p ∈ l →
    ∀ c ∈ p.data, c ∈ strsChars l := by
  intro l
  induction l with
  | nil => intro p hp; exact absurd hp (by simp)
  | cons t ts ih =>
    intro p hp c hc
    rw [strsChars_cons]
    rcases List.mem_cons.mp hp with h | h
    · subst h; exact List.mem_append_left _ hc
    · exact List.mem_append_right _ (ih p h c hc)

theorem build_order_by_chars (expr : List (String × String)) :
    ∀ c ∈ (build_order_by expr).data, c ∈ FIXED ∨ c ∈ strsChars (expr.map Prod.fst) := by
  cases expr with
  | nil => exact fun c hc => nomatch hc
  | cons p ps =>
    intro c hc
    simp only [build_order_by] at hc
    rcases joinSep_chars "," _ c hc with h | ⟨part, hpart, hcp⟩
    · exact Or.inl (lit_fixed (by decide) h)
    · rcases List.mem_map.mp hpart with ⟨pq, hpq, hform⟩
      rw [← hform] at hcp
      simp only [String.data_append, List.mem_append] at hcp
      rcases hcp with (h1 | h1) | h1
      · exact Or.inr (strsChars_mem _ _ (List.mem_map_of_mem Prod.fst hpq) c h1)
      · exact Or.inl (lit_fixed (by decide) h1)
      · refine Or.inl ?_
        have hde : ∀ x ∈ (if strLower pq.2 = "desc" then ("DESC" : String) else "ASC").data,
            x ∈ FIXED := by
          split <;> decide
        exact hde c h1

theorem addFroms_chars : ∀ (fts : List String) (i : Nat) (ft : String) (al : List String),
    ∀ c ∈ (addFroms fts i ft al).1.data,
      c ∈ ft.data ∨ c ∈ FIXED ∨ c ∈ strsChars fts := by
  intro fts
  induction fts with
  | nil =>
    intro i ft al c hc
    simp only [addFroms] at hc
    exact Or.inl hc
  | cons t ts ih =>
    intro i ft al c hc
    simp only [addFroms] at hc
    cases hf : findSubstr (strLower t) " as " with
    | some k =>
      rw [hf] at hc
      simp only at hc
      rcases ih (i + 1) (ft ++ "," ++ t) (al ++ [t.drop (k + 4)]) c hc with h | h | h
      · simp only [String.data_append, List.mem_append] at h
        rcases h with (h1 | h1) | h1
        · exact Or.inl h1
        · exact Or.inr (Or.inl (lit_fixed (by decide) h1))
        · exact Or.inr (Or.inr (strsChars_mem (t :: ts) t (by simp) c h1))
      · exact Or.inr (Or.inl h)
      · rw [strsChars_cons]
        exact Or.inr (Or.inr (List.mem_append_right _ h))
    | none =>
      rw [hf] at hc
      simp only at hc
      rcases ih (i + 1) (ft ++ "," ++ t ++ " as " ++ ("t" ++ Nat.repr i))
          (al ++ ["t" ++ Nat.repr i]) c hc with h | h | h
      · simp only [String.data_append, List.mem_append] at h
        rcases h with (((h1 | h1) | h1) | h1) | h2 | h2
        · exact Or.inl h1
        · exact Or.inr (Or.inl (lit_fixed (by decide) h1))
        · exact Or.inr (Or.inr (strsChars_mem (t :: ts) t (by simp) c h1))
        · exact Or.inr (Or.inl (lit_fixed (by decide) h1))
        · have ht : ∀ x ∈ ("t" : String).data, x ∈ FIXED := by decide
          exact Or.inr (Or.inl (ht c h2))
        · exact Or.inr (Or.inl (natRepr_fixed i c h2))
      · exact Or.inr (Or.inl h)
      · rw [strsChars_cons]
        exact Or.inr (Or.inr (List.mem_append_right _ h))

theorem qs_mem (q : Query) (bt : String) {c : Char}
    (h : c ∈ bt.data ∨ c ∈ q.query_args.ds_sub.data ∨ c ∈ attCharsO q.whereQ ∨
      c ∈ strsChars q.fromQ ∨ c ∈ strsChars q.where_join ∨ c ∈ retChars q.returns ∨
      c ∈ strsChars (q.order_by.map Prod.fst) ∨ c ∈ optChars q.group_by ∨
      c ∈ optChars q.having) :
    c ∈ qSrcChars q bt := by
  simp only [qSrcChars, List.mem_append]
  tauto

theorem get_query_chars (b : PGB) (S : List Char)
    (hcols : ∀ c ∈ (joinSep "," b.cols).data, c ∈ FIXED ++ S)
    (hft : ∀ c ∈ b.from_tables.data, c ∈ FIXED ++ S)
    (hw : ∀ c ∈ b.whereS.data, c ∈ FIXED ++ S)
    (hgb : ∀ c ∈ (b.group_by.getD "").data, c ∈ FIXED ++ S)
    (hhv : ∀ c ∈ (b.having.getD "").data, c ∈ FIXED ++ S)
    (hob : ∀ c ∈ b.order_byS.data, c ∈ FIXED ++ S) :
    ∀ c ∈ (get_query b).data, c ∈ FIXED ++ S := by
  simp only [get_query]
  repeat' refine app_sub ?_ ?_
  all_goals first
    | exact hcols
    | exact hft
    | exact wQ1 (by decide)
    | exact ite_chars (app_sub (wQ1 (by decide)) hw) (fun c hc => nomatch hc)
    | exact ite_chars
        (app_sub (app_sub (wQ1 (by decide)) hgb)
          (ite_chars (app_sub (wQ1 (by decide)) hhv) (fun c hc => nomatch hc)))
        (fun c hc => nomatch hc)
    | exact ite_chars (app_sub (wQ1 (by decide)) hob) (fun c hc => nomatch hc)
    | exact ite_chars_h
        (fun hpos => app_sub (wQ1 (by decide)) (wQ1 (intStr_fixed _ hpos)))
        (fun c hc => nomatch hc)

theorem joinSep_to (sep : String) (l : List String) (T : List Char)
    (hsep : ∀ c ∈ sep.data, c ∈ T)
    (hp : ∀ p ∈ l, ∀ c ∈ p.data, c ∈ T) :
    ∀ c ∈ (joinSep sep l).data, c ∈ T := by
  intro c hc
  rcases joinSep_chars sep l c hc with h | ⟨p, hpl, hcp⟩
  · exact hsep c h
  · exact hp p hpl c hcp

/-- C1: Injection safety, outside the named-geometry branch and the inlined
LIMIT/OFFSET integers: for a query whose predicate tree has no GOP_*_GEOM
node, every character of the statement text returned by `get_query` comes
from the compiler's fixed alphabet (`FIXED`, which contains no single quote,
double quote, semicolon or backslash) or from caller-supplied structural text
(the base table name, sub-table suffix, attribute/column names, FROM tables,
where_join fragments, returns columns, order-by columns and group/having
clauses).  Literal predicate values and query parameters contribute no
characters to the statement: they reach it only through `%(vN)s` placeholder
references resolved against `get_values`. -/
theorem pgq_C1_injection_safety (q : Query) (bt : String) (b : PGB)
    (hg : geomFreeO q.whereQ = true)
    (hb : mkBuilder q bt = .ok b) :
    ∀ c ∈ (get_query b).data, c ∈ FIXED ∨ c ∈ qSrcChars q bt := by
  have key : ∀ c ∈ (get_query b).data, c ∈ FIXED ++ qSrcChars q bt := by
    cases hfmt : q.query_args.format with
    | complex =>
      simp only [mkBuilder] at hb
      rw [hfmt] at hb
      simp only at hb
      cases hw0 : build_where_opt ⟨bt, q.query_args.profile, q.query_args.datastore,
          q.query_args.ds_sub, q.query_params⟩ q.whereQ "" ⟨0, []⟩ with
      | error er => rw [hw0] at hb; exact absurd hb (by simp)
      | ok pr =>
        obtain ⟨w, st⟩ := pr
        rw [hw0] at hb
        simp only at hb
        injection hb with hb1
        rw [← hb1]
        have hww : ∀ c ∈ w.data, c ∈ FIXED ++ qSrcChars q bt := by
          cases hwq : q.whereQ with
          | none =>
            rw [hwq] at hw0
            simp only [build_where_opt] at hw0
            injection hw0 with hp
            injection hp with h1 h2
            rw [← h1]
            exact fun c hc => nomatch hc
          | some e =>
            rw [hwq] at hw0
            simp only [build_where_opt] at hw0
            have hge : geomFree e = true := by
              rw [hwq] at hg
              simpa [geomFreeO] using hg
            have hbw := bw_chars (sizeOf e) e (le_refl _) _ "" ⟨0, []⟩ w st hge hw0
            intro c hc
            have h2 := hbw c hc
            simp only [List.mem_append] at h2
            rcases h2 with ((h3 | h3) | h3) | h3
            · exact List.mem_append_left _ h3
            · refine List.mem_append_right _ (qs_mem q bt (Or.inr (Or.inr (Or.inl ?_))))
              rw [hwq]
              exact h3
            · exact nomatch h3
            · exact List.mem_append_right _ (qs_mem q bt (Or.inl h3))
        refine get_query_chars _ (qSrcChars q bt) ?_ ?_ ?_ ?_ ?_ ?_
        · have hbase : ∀ p ∈ (["base.id"] ++
              (if q.query_args.id_only then [] else ["base.doc"]) : List String),
              ∀ c ∈ p.data, c ∈ FIXED ++ qSrcChars q bt := by
            intro p hp c hc
            rcases List.mem_append.mp hp with h | h
            · simp at h
              subst h
              exact List.mem_append_left _ (lit_fixed (by decide) hc)
            · have hpd : p = "base.doc" := by
                revert h
                split
                · intro h; exact absurd h (by simp)
                · intro h; simpa using h
              subst hpd
              exact List.mem_append_left _ (lit_fixed (by decide) hc)
          cases hr : q.returns with
          | none =>
            refine joinSep_to _ _ _
              (fun c hc => List.mem_append_left _ (lit_fixed (by decide) hc)) ?_
            exact hbase
          | some pr =>
            obtain ⟨ext, rets⟩ := pr
            have hrets : ∀ p ∈ rets, ∀ c ∈ p.data, c ∈ FIXED ++ qSrcChars q bt := by
              intro p hp c hc
              refine List.mem_append_right _ (qs_mem q bt
                (Or.inr (Or.inr (Or.inr (Or.inr (Or.inr (Or.inl ?_)))))))
              rw [hr]
              exact strsChars_mem _ p hp c hc
            cases ext with
            | true =>
              refine joinSep_to _ _ _
                (fun c hc => List.mem_append_left _ (lit_fixed (by decide) hc)) ?_
              intro p hp
              rcases List.mem_append.mp hp with h | h
              · exact hbase p h
              · exact hrets p h
            | false =>
              refine joinSep_to _ _ _
                (fun c hc => List.mem_append_left _ (lit_fixed (by decide) hc)) ?_
              exact hrets
        · intro c hc
          rcases addFroms_chars _ _ _ _ c hc with h | h | h
          · rw [String.data_append] at h
            rcases List.mem_append.mp h with h1 | h1
            · exact List.mem_append_right _ (qs_mem q bt (Or.inl h1))
            · exact List.mem_append_left _ (lit_fixed (by decide) h1)
          · exact List.mem_append_left _ h
          · exact List.mem_append_right _ (qs_mem q bt (Or.inr (Or.inr (Or.inr (Or.inl h)))))
        · refine ite_chars hww ?_
          repeat' refine app_sub ?_ ?_
          all_goals first
            | exact hww
            | exact wQ1 (by decide)
            | (intro c hc
               rcases joinSep_chars _ _ c hc with h | ⟨p, hp, hcp⟩
               · exact List.mem_append_left _ (lit_fixed (by decide) h)
               · exact List.mem_append_right _ (qs_mem q bt (Or.inr (Or.inr (Or.inr (Or.inr
                   (Or.inl (strsChars_mem _ p hp c hcp))))))))
        · cases hgq : q.group_by with
          | none => exact fun c hc => nomatch hc
          | some s =>
            intro c hc
            refine List.mem_append_right _ (qs_mem q bt (Or.inr (Or.inr (Or.inr (Or.inr
              (Or.inr (Or.inr (Or.inr (Or.inl ?_)))))))))
            rw [hgq]
            exact hc
        · cases hhq : q.having with
          | none => exact fun c hc => nomatch hc
          | some s =>
            intro c hc
            refine List.mem_append_right _ (qs_mem q bt (Or.inr (Or.inr (Or.inr (Or.inr
              (Or.inr (Or.inr (Or.inr (Or.inr ?_)))))))))
            rw [hhq]
            exact hc
        · intro c hc
          rcases build_order_by_chars q.order_by c hc with h | h
          · exact List.mem_append_left _ h
          · exact List.mem_append_right _ (qs_mem q bt (Or.inr (Or.inr (Or.inr (Or.inr
              (Or.inr (Or.inr (Or.inl h))))))))
    | plain =>
      simp only [mkBuilder] at hb
      rw [hfmt] at hb
      simp only at hb
      have hbt2 : ∀ c ∈ (if q.query_args.ds_sub != "" then
          bt ++ "_" ++ q.query_args.ds_sub else bt).data, c ∈ FIXED ++ qSrcChars q bt := by
        refine ite_chars ?_ ?_
        · intro c hc
          simp only [String.data_append, List.mem_append] at hc
          rcases hc with (h | h) | h
          · exact List.mem_append_right _ (qs_mem q bt (Or.inl h))
          · exact List.mem_append_left _ (lit_fixed (by decide) h)
          · exact List.mem_append_right _ (qs_mem q bt (Or.inr (Or.inl h)))
        · exact fun c hc => List.mem_append_right _ (qs_mem q bt (Or.inl hc))
      cases hw0 : build_where_opt ⟨(if q.query_args.ds_sub != "" then
          bt ++ "_" ++ q.query_args.ds_sub else bt), q.query_args.profile,
          q.query_args.datastore, q.query_args.ds_sub, q.query_params⟩
          q.whereQ "" ⟨0, []⟩ with
      | error er => rw [hw0] at hb; exact absurd hb (by simp)
      | ok pr =>
        obtain ⟨w, st⟩ := pr
        rw [hw0] at hb
        simp only at hb
        injection hb with hb1
        rw [← hb1]
        have hww : ∀ c ∈ w.data, c ∈ FIXED ++ qSrcChars q bt := by
          cases hwq : q.whereQ with
          | none =>
            rw [hwq] at hw0
            simp only [build_where_opt] at hw0
            injection hw0 with hp
            injection hp with h1 h2
            rw [← h1]
            exact fun c hc => nomatch hc
          | some e =>
            rw [hwq] at hw0
            simp only [build_where_opt] at hw0
            have hge : geomFree e = true := by
              rw [hwq] at hg
              simpa [geomFreeO] using hg
            have hbw := bw_chars (sizeOf e) e (le_refl _) _ "" ⟨0, []⟩ w st hge hw0
            intro c hc
            have h2 := hbw c hc
            simp only [List.mem_append] at h2
            rcases h2 with ((h3 | h3) | h3) | h3
            · exact List.mem_append_left _ h3
            · refine List.mem_append_right _ (qs_mem q bt (Or.inr (Or.inr (Or.inl ?_))))
              rw [hwq]
              exact h3
            · exact nomatch h3
            · exact hbt2 c h3
        refine get_query_chars _ (qSrcChars q bt) ?_ ?_ ?_ ?_ ?_ ?_
        · refine joinSep_to _ _ _
            (fun c hc => List.mem_append_left _ (lit_fixed (by decide) hc)) ?_
          intro p hp c hc
          rcases List.mem_append.mp hp with h | h
          · simp at h
            subst h
            exact List.mem_append_left _ (lit_fixed (by decide) hc)
          · have hpd : p = "doc" := by
              revert h
              split
              · intro h; exact absurd h (by simp)
              · intro h; simpa using h
            subst hpd
            exact List.mem_append_left _ (lit_fixed (by decide) hc)
        · exact hbt2
        · exact hww
        · exact fun c hc => nomatch hc
        · exact fun c hc => nomatch hc
        · intro c hc
          rcases build_order_by_chars q.order_by c hc with h | h
          · exact List.mem_append_left _ h
          · exact List.mem_append_right _ (qs_mem q bt (Or.inr (Or.inr (Or.inr (Or.inr
              (Or.inr (Or.inr (Or.inl h))))))))
  intro c hc
  exact List.mem_append.mp (key c hc)

/-- Concrete QuerySpec hitting the named-geometry branch with a positive
limit: plain format over base table "res", WHERE a GOP_WITHIN_GEOM predicate
on column "geom" with WKT literal "POINT(1 2)" and no buffer, limit 7. -/
def cexQ : Query :=
  ⟨⟨.RESOURCES, "resources", "", .plain, false, 7, 0⟩,
   some (.ggeom .within "geom" "POINT(1 2)" PgVal.none),
   [], Option.none, [], [], Option.none, Option.none, []⟩

/-- C1 counterexample: the named-geometry branch splices the caller's WKT
literal directly into the statement (inside ST_GeomFromEWKT), and the limit
argument is inlined as text, while the binding returned by `get_values` is
empty - so these literals do not appear as named placeholders, refuting the
claim for geometry WKT strings and limit/skip. -/
theorem pgq_C1_injection_safety_cex :
    (mkBuilder cexQ "res").map get_query =
      .ok "SELECT id,doc FROM res WHERE ST_Within(geom,ST_GeomFromEWKT('SRID=4326;POINT(1 2)')) LIMIT 7" ∧
    (mkBuilder cexQ "res").map get_values = .ok [] :=
  ⟨rfl, rfl⟩

/-- Concrete geometry-free QuerySpec for instantiating the injection-safety
theorem: plain format, an EQ comparison on the whitelisted column "name",
limit 5. -/
def wQry : Query :=
  ⟨⟨.RESOURCES, "resources", "", .plain, false, 5, 0⟩,
   some (.cmp .eq "name" (.s "x")),
   [], Option.none, [], [], Option.none, Option.none, []⟩

/-- The builder produced for `wQry` over base table "res". -/
def wB : PGB :=
  ⟨"res", "res", ⟨1, [("v1", PgVal.s "x")]⟩, ["id", "doc"], ["res"], true,
   "name=%(v1)s", "", Option.none, Option.none, wQry.query_args⟩

theorem pgq_C1_injection_safety_w :
    geomFreeO wQry.whereQ = true ∧ mkBuilder wQry "res" = .ok wB ∧
    ∀ c ∈ (get_query wB).data, c ∈ FIXED ∨ c ∈ qSrcChars wQry "res" :=
  ⟨rfl, rfl, pgq_C1_injection_safety wQry "res" wB rfl rfl⟩

end PgQ
